import Mathlib

/-!
The JOS kernel monitor (`kern/monitor.c`).

A shallow embedding of the command-line kernel monitor: the command table, the
three built-in commands `mon_help`, `mon_kerninfo`, `mon_backtrace`, the command
interpreter `runcmd` and the read-eval loop `monitor`, followed by theorems
about them.

Conventions of the embedding

* A C string is a `List Char`; the terminating NUL sits right after the last
  element of the list, so reading at the end of the list yields `NUL`.  A list
  may itself contain `NUL`; C code then sees only the part before it (`cstr`).
* A `char *` into the command buffer is the pair of the bytes before the
  pointer and the bytes from the pointer on; its numeric value is the length of
  the first component.
* 32-bit unsigned values are natural numbers reduced modulo `2 ^ 32`.
* Console output is a list of chunks, one per call of `cprintf`, in order.
* The `struct Trapframe *tf` argument is passed around but never inspected by
  any function of the file; it is left out.
-/

namespace Monitor

/-! ## Characters and strings -/

/-- A C character string. -/
abbrev Str := List Char

/-- The string terminator, the character with code 0. -/
def NUL : Char := Char.ofNat 0

/-- The value of `*p` for a `char *p`: the first byte from the pointer on, the
terminator when nothing is left. -/
def deref (p : Str) : Char := p.headD NUL

/-- The C string held by a buffer: the bytes before the first terminator. -/
def cstr (p : Str) : Str := p.takeWhile (fun c => c != NUL)

/-- Source: `#define WHITESPACE "\t\r\n "`. -/
def WHITESPACE : Str := "\t\r\n ".toList

/-- Source: `#define MAXARGS 16`. -/
def MAXARGS : Nat := 16

/-- Modelled from the spec: `strchr` is declared in `inc/string.h` and defined
outside the sources at hand.  `strchr s c` scans the string `s` up to its
terminator and reports whether it found `c` (a non-null result).  The spec
names the four characters of `WHITESPACE` (tab, carriage return, newline,
space) as the separators found by `strchr (WHITESPACE, c)`. -/
def strchr : Str → Char → Bool
  | [], _ => false
  | x :: xs, c => if x = NUL then false else if x = c then true else strchr xs c

/-- Modelled from the spec: `strcmp` is declared in `inc/string.h` and defined
outside the sources at hand.  It walks both strings while they agree and the
first is not at its terminator, and returns the difference of the two bytes it
stops at; the spec asks for exact, case-sensitive string equality, which is
the result 0. -/
def strcmp : Str → Str → Int
  | [], [] => 0
  | [], d :: _ => 0 - (d.toNat : Int)
  | c :: _, [] => (c.toNat : Int) - 0
  | c :: p, d :: q =>
    if c ≠ NUL ∧ c = d then strcmp p q else (c.toNat : Int) - (d.toNat : Int)

/-! ## Formatted output

`cprintf` is an external collaborator (the output sink of the spec); the
conversions used by the monitor are functions producing the characters
written. -/

/-- Modelled from the spec: `cprintf` is defined outside the sources at hand.
Conversion `%s`: the characters of the argument up to its terminator. -/
def fmt_s (s : Str) : Str := cstr s

/-- Modelled from the spec: `cprintf` is defined outside the sources at hand.
Conversion `%.*s` with precision `prec`: at most `prec` characters of the
argument, stopping early at a terminator; a negative precision counts as
absent. -/
def fmt_prec_s (prec : Int) (s : Str) : Str :=
  if prec < 0 then cstr s else cstr (s.take prec.toNat)

/-- Modelled from the spec: `cprintf` is defined outside the sources at hand.
Conversion `%d` of a signed integer: its decimal digits, after a minus sign
when it is negative. -/
def fmt_d (i : Int) : Str :=
  if i < 0 then '-' :: Nat.toDigits 10 i.natAbs else Nat.toDigits 10 i.toNat

/-- One lowercase hexadecimal digit. -/
def hexDigit (d : Nat) : Char := Nat.digitChar (d % 16)

/-- Modelled from the spec: `cprintf` is defined outside the sources at hand.
Conversion `%08x` of a 32-bit unsigned value (fixed-width hexadecimal): eight
lowercase hexadecimal digits, most significant first, padded with zeros. -/
def fmt_08x (v : Nat) : Str :=
  [hexDigit (v / 16 ^ 7), hexDigit (v / 16 ^ 6), hexDigit (v / 16 ^ 5),
   hexDigit (v / 16 ^ 4), hexDigit (v / 16 ^ 3), hexDigit (v / 16 ^ 2),
   hexDigit (v / 16), hexDigit v]

/-- A 32-bit pattern read as a signed `int` (what `%d` does to a `uint32_t`
argument). -/
def toInt32 (v : Nat) : Int :=
  if v % 2 ^ 32 < 2 ^ 31 then (v % 2 ^ 32 : Nat) else ((v % 2 ^ 32 : Nat) : Int) - 2 ^ 32

/-! ## The command table -/

/-- The function a table entry points to (`int (*func)(int, char **, struct
Trapframe *)`): one tag per function whose address is stored. -/
inductive Handler where
  | mon_help
  | mon_kerninfo
  | mon_backtrace
  deriving DecidableEq, Repr

/-- Source: `struct Command`. -/
structure Command where
  name : Str
  desc : Str
  usage : Str
  func : Handler
  deriving DecidableEq

/-- Source: `static struct Command commands[]`. -/
def commands : List Command :=
  [ ⟨"help".toList, "Display this list of commands or one of the command".toList,
      "help\nhelp <command>".toList, Handler.mon_help⟩,
    ⟨"kerninfo".toList, "Display information about the kernel".toList,
      "kerninfo".toList, Handler.mon_kerninfo⟩,
    ⟨"backtrace".toList, "Display backtrace info".toList,
      "backtrace".toList, Handler.mon_backtrace⟩ ]

/-- Source: `#define NCOMMANDS (sizeof(commands) / sizeof(commands[0]))`. -/
def NCOMMANDS : Nat := commands.length

/-- The entry `commands[i]`; indexing outside the table yields an entry of
empty strings (no index used by the monitor is outside). -/
def commandAt (i : Nat) : Command :=
  commands.getD i ⟨[], [], [], Handler.mon_help⟩

/-! ## The state the monitor acts on -/

/-- A record of one call through a table entry: the function called and the
arguments it received. -/
structure Call where
  func : Handler
  argc : Nat
  argv : List Str
  deriving DecidableEq

/-- What the monitor changes or leaves a trace in: the console (one chunk per
`cprintf`), the addresses of the memory words read so far, and the calls made
through the command table so far. -/
structure World where
  out : List Str
  reads : List Nat
  calls : List Call
  deriving DecidableEq

/-- Modelled from the spec: `cprintf`, the formatted-text sink, is defined
outside the sources at hand.  Its effect: the text is appended to the
console. -/
def cprintf (text : Str) (w : World) : World :=
  { w with out := w.out ++ [text] }

/-- Modelled from the spec: `struct Eipdebuginfo` is declared in
`kern/kdebug.h`, outside the sources at hand.  The fields are those
`mon_backtrace` uses (the symbol information of the spec): source file, line
number, function name as a buffer with an explicit length, and the start
address of the function. -/
structure Eipdebuginfo where
  eip_file : Str
  eip_line : Int
  eip_fn_name : Str
  eip_fn_namelen : Int
  eip_fn_addr : Nat

/-- What the rest of the kernel supplies to the monitor: the frame pointer
register seen by `read_ebp`, the memory (a word per address, `none` where a
read faults), the symbol resolver `debuginfo_eip` (its `int` result and the
record it fills), the linker symbols printed by `mon_kerninfo`, and
`KERNBASE`. -/
structure Kernel where
  ebp : Nat
  mem : Nat → Option Nat
  debuginfo_eip : Nat → Int × Eipdebuginfo
  sym_start : Nat
  sym_entry : Nat
  sym_etext : Nat
  sym_edata : Nat
  sym_end : Nat
  KERNBASE : Nat

/-- How a call ends: it returns a value, or it stops at a faulting memory
read, or the step budget of the model is used up with the call still
running. -/
inductive Outcome where
  | ret (v : Int) (w : World)
  | fault
  | running (w : World)
  deriving DecidableEq

/-! ## `mon_help` -/

/-- The text of `cprintf("%s - %s - usage:\n%s\n", name, desc, usage)`. -/
def helpListEntry (c : Command) : Str :=
  fmt_s c.name ++ " - ".toList ++ fmt_s c.desc ++ " - usage:\n".toList ++ fmt_s c.usage
    ++ "\n".toList

/-- The text of `cprintf("%s - %s - %s\n", name, desc, usage)`. -/
def helpOneEntry (c : Command) : Str :=
  fmt_s c.name ++ " - ".toList ++ fmt_s c.desc ++ " - ".toList ++ fmt_s c.usage ++ "\n".toList

/-- The text of `cprintf("help usage:\n%s\n", usage)`. -/
def helpUsage (c : Command) : Str :=
  "help usage:\n".toList ++ fmt_s c.usage ++ "\n".toList

/-- Source: `mon_help`.  The `for` loop over `i < NCOMMANDS` is the fold over
the table. -/
def mon_help (argc : Nat) (_argv : List Str) (w : World) : Outcome :=
  if argc = 1 then
    Outcome.ret 0 (commands.foldl (fun w c => cprintf (helpListEntry c) w) w)
  else if argc = 2 then
    Outcome.ret 0 (cprintf (helpOneEntry (commandAt 1)) w)
  else
    Outcome.ret 0 (cprintf (helpUsage (commandAt 0)) w)

/-! ## `mon_kerninfo` -/

/-- Subtraction of 32-bit values, as the machine does it. -/
def sub32 (a b : Nat) : Nat := (a % 2 ^ 32 + 2 ^ 32 - b % 2 ^ 32) % 2 ^ 32

/-- Modelled from the spec: the macro `ROUNDUP` of `inc/types.h` is outside the
sources at hand; it rounds a 32-bit value up to the next multiple of `n`. -/
def ROUNDUP (a n : Nat) : Nat :=
  (a % 2 ^ 32 + n - 1) % 2 ^ 32 - ((a % 2 ^ 32 + n - 1) % 2 ^ 32) % n

/-- Source: `mon_kerninfo`. -/
def mon_kerninfo (k : Kernel) (_argc : Nat) (_argv : List Str) (w : World) : Outcome :=
  let w := cprintf "Special kernel symbols:\n".toList w
  let w := cprintf ("  _start                  ".toList ++ fmt_08x (k.sym_start % 2 ^ 32)
    ++ " (phys)\n".toList) w
  let w := cprintf ("  entry  ".toList ++ fmt_08x (k.sym_entry % 2 ^ 32) ++ " (virt)  ".toList
    ++ fmt_08x (sub32 k.sym_entry k.KERNBASE) ++ " (phys)\n".toList) w
  let w := cprintf ("  etext  ".toList ++ fmt_08x (k.sym_etext % 2 ^ 32) ++ " (virt)  ".toList
    ++ fmt_08x (sub32 k.sym_etext k.KERNBASE) ++ " (phys)\n".toList) w
  let w := cprintf ("  edata  ".toList ++ fmt_08x (k.sym_edata % 2 ^ 32) ++ " (virt)  ".toList
    ++ fmt_08x (sub32 k.sym_edata k.KERNBASE) ++ " (phys)\n".toList) w
  let w := cprintf ("  end    ".toList ++ fmt_08x (k.sym_end % 2 ^ 32) ++ " (virt)  ".toList
    ++ fmt_08x (sub32 k.sym_end k.KERNBASE) ++ " (phys)\n".toList) w
  let w := cprintf ("Kernel executable memory footprint: ".toList
    ++ fmt_d (Int.tdiv (toInt32 (ROUNDUP (sub32 k.sym_end k.sym_entry) 1024)) 1024)
    ++ "KB\n".toList) w
  Outcome.ret 0 w

/-! ## `mon_backtrace` -/

/-- A read of the 32-bit word at address `a` (`*(uint32_t *) a`): the word and
the world with the read recorded, or nothing when the read faults. -/
def load (k : Kernel) (a : Nat) (w : World) : Option (Nat × World) :=
  match k.mem (a % 2 ^ 32) with
  | none => none
  | some v => some (v % 2 ^ 32, { w with reads := w.reads ++ [a % 2 ^ 32] })

/-- Source: the six assignments `eip = *((uint32_t *)ebp + 1); arg[0] =
*((uint32_t *)ebp + 2); ... arg[4] = *((uint32_t *)ebp + 6);` (they occur twice
in `mon_backtrace`, before the loop and inside it).  The result is `eip`, the
array `arg` and the world. -/
def readFrame (k : Kernel) (ebp : Nat) (w : World) : Option (Nat × List Nat × World) := do
  let (eip, w) ← load k (ebp + 4 * 1) w
  let (a0, w) ← load k (ebp + 4 * 2) w
  let (a1, w) ← load k (ebp + 4 * 3) w
  let (a2, w) ← load k (ebp + 4 * 4) w
  let (a3, w) ← load k (ebp + 4 * 5) w
  let (a4, w) ← load k (ebp + 4 * 6) w
  pure (eip, [a0, a1, a2, a3, a4], w)

/-- The text of `cprintf("ebp %08x eip %08x args %08x %08x %08x  %08x %08x\n",
ebp, eip, arg[0], arg[1], arg[2], arg[3], arg[4])`. -/
def summaryLine (ebp eip : Nat) (arg : List Nat) : Str :=
  "ebp ".toList ++ fmt_08x ebp ++ " eip ".toList ++ fmt_08x eip ++ " args ".toList
    ++ fmt_08x (arg.getD 0 0) ++ " ".toList ++ fmt_08x (arg.getD 1 0) ++ " ".toList
    ++ fmt_08x (arg.getD 2 0) ++ "  ".toList ++ fmt_08x (arg.getD 3 0) ++ " ".toList
    ++ fmt_08x (arg.getD 4 0) ++ "\n".toList

/-- The text of `cprintf("\t\t%s:%d: %.*s+%d\n", info.eip_file, info.eip_line,
info.eip_fn_namelen, info.eip_fn_name, fn_offset)`. -/
def symbolLine (info : Eipdebuginfo) (fn_offset : Nat) : Str :=
  "\t\t".toList ++ fmt_s info.eip_file ++ ":".toList ++ fmt_d info.eip_line ++ ": ".toList
    ++ fmt_prec_s info.eip_fn_namelen info.eip_fn_name ++ "+".toList
    ++ fmt_d (toInt32 fn_offset) ++ "\n".toList

/-- Source: one pass through the body of the `while` loop of `mon_backtrace`
(entered with `ebp != 0`).  The result is the new `ebp`, `eip`, `arg` and
world, or nothing when a read faults.  The record `info` filled by
`debuginfo_eip` is taken as a value here and the memory stays as it is, which
is right as long as no word the walker reads is a word of the object `info`;
`backtraceBodyStack` is the same pass with `info` in memory. -/
def backtraceBody (k : Kernel) (ebp eip : Nat) (arg : List Nat) (w : World) :
    Option (Nat × Nat × List Nat × World) := do
  let ptr_ebp := ebp
  let w := cprintf (summaryLine ebp eip arg) w
  let (ebp1, w) ← load k ebp w
  let (eip1, arg1, w) ← readFrame k ebp1 w
  let (ra, w) ← load k (ptr_ebp + 4 * 1) w
  let found := k.debuginfo_eip ra
  let info := found.2
  let w ← (if found.1 = 0 then do
      let (ra2, w) ← load k (ptr_ebp + 4 * 1) w
      let fn_offset := sub32 ra2 info.eip_fn_addr
      pure (cprintf (symbolLine info fn_offset) w)
    else pure w)
  let (ebp2, w) ← load k ptr_ebp w
  pure (ebp2, eip1, arg1, w)

/-- Source: the `while (ebp != 0x00)` loop of `mon_backtrace` followed by
`return 0`.  The first argument bounds the number of times the loop condition
is evaluated. -/
def backtraceLoop (k : Kernel) : Nat → Nat → Nat → List Nat → World → Outcome
  | 0, _, _, _, w => Outcome.running w
  | fuel + 1, ebp, eip, arg, w =>
    if ebp ≠ 0 then
      match backtraceBody k ebp eip arg w with
      | none => Outcome.fault
      | some (ebp1, eip1, arg1, w1) => backtraceLoop k fuel ebp1 eip1 arg1 w1
    else Outcome.ret 0 w

/-- Source: `mon_backtrace`. -/
def mon_backtrace (fuel : Nat) (k : Kernel) (_argc : Nat) (_argv : List Str) (w : World) :
    Outcome :=
  let ebp := k.ebp % 2 ^ 32
  match readFrame k ebp w with
  | none => Outcome.fault
  | some (eip, arg, w) =>
    backtraceLoop k fuel ebp eip arg (cprintf "Stack backtrace:\n".toList w)

/-! ## The command interpreter `runcmd` -/

/-- The content of one element of `char *argv[MAXARGS]`: never written, the
null pointer, or a pointer to the byte of the command buffer at an offset. -/
inductive Slot where
  | junk
  | null
  | ptr (off : Nat)
  deriving DecidableEq

/-- The write `argv[i] = v`; nothing when `i` is outside the array
`argv[MAXARGS]`. -/
def argvWrite (argv : Nat → Slot) (i : Nat) (v : Slot) : Option (Nat → Slot) :=
  if i < MAXARGS then some (fun j => if j = i then v else argv j) else none

/-- Source: `while (*buf && strchr(WHITESPACE, *buf)) *buf++ = 0;`.  The
argument is the buffer from `buf` on; the result is the bytes written (one
terminator per byte passed) and the buffer from the new `buf` on. -/
def gobble : Str → Str × Str
  | [] => ([], [])
  | c :: cs =>
    if c ≠ NUL ∧ strchr WHITESPACE c = true then (NUL :: (gobble cs).1, (gobble cs).2)
    else ([], c :: cs)

/-- Source: `while (*buf && !strchr(WHITESPACE, *buf)) buf++;`.  The argument
is the buffer from `buf` on; the result is the bytes passed over and the
buffer from the new `buf` on. -/
def scanArg : Str → Str × Str
  | [] => ([], [])
  | c :: cs =>
    if c ≠ NUL ∧ ¬ strchr WHITESPACE c = true then (c :: (scanArg cs).1, (scanArg cs).2)
    else ([], c :: cs)

/-- How the parsing part of `runcmd` ends: at the report of too many arguments
(with the buffer as it is then), at the end of the loop (with the buffer,
`argc` and `argv`), or at a write outside `argv`. -/
inductive Parsed where
  | tooMany (buf : Str)
  | args (buf : Str) (argc : Nat) (argv : Nat → Slot)
  | outOfBounds

/-- Source: the `while (1)` loop of `runcmd`.  `done` holds the bytes of the
buffer before `buf`, `rest` the bytes from `buf` on.  The first argument bounds
the number of passes; `none` means the bound was reached. -/
def parseLoop : Nat → Str → Str → Nat → (Nat → Slot) → Option Parsed
  | 0, _, _, _, _ => none
  | fuel + 1, done, rest, argc, argv =>
    let done1 := done ++ (gobble rest).1
    let rest1 := (gobble rest).2
    if deref rest1 = NUL then some (Parsed.args (done1 ++ rest1) argc argv)
    else if argc = MAXARGS - 1 then some (Parsed.tooMany (done1 ++ rest1))
    else
      match argvWrite argv argc (Slot.ptr done1.length) with
      | none => some Parsed.outOfBounds
      | some argv1 =>
        parseLoop fuel (done1 ++ (scanArg rest1).1) (scanArg rest1).2 (argc + 1) argv1

/-- Source: the parsing part of `runcmd`, from `argc = 0; argv[argc] = 0;`
through the loop to `argv[argc] = 0;`.  Every pass of the loop that does not
leave it moves `buf` forward, so one pass more than the buffer has bytes is
enough. -/
def parseArgs (buf : Str) : Option Parsed :=
  match argvWrite (fun _ => Slot.junk) 0 Slot.null with
  | none => some Parsed.outOfBounds
  | some argv0 =>
    match parseLoop (buf.length + 1) [] buf 0 argv0 with
    | some (Parsed.args buf1 argc argv) =>
      (match argvWrite argv argc Slot.null with
       | none => some Parsed.outOfBounds
       | some argv1 => some (Parsed.args buf1 argc argv1))
    | r => r

/-- The string a handler finds behind an element of `argv`: the bytes of the
buffer from the pointer up to the next terminator (nothing behind a slot that
holds no pointer). -/
def slotStr (buf : Str) : Slot → Str
  | Slot.ptr off => cstr (buf.drop off)
  | _ => []

/-- The strings `argv[0]`, ..., `argv[argc - 1]`. -/
def argStrings (buf : Str) (argc : Nat) (argv : Nat → Slot) : List Str :=
  (List.range argc).map (fun i => slotStr buf (argv i))

/-- The function behind a table entry. -/
def handlerBody (fuel : Nat) (k : Kernel) : Handler → Nat → List Str → World → Outcome
  | Handler.mon_help => mon_help
  | Handler.mon_kerninfo => mon_kerninfo k
  | Handler.mon_backtrace => mon_backtrace fuel k

/-- The call `commands[i].func(argc, argv, tf)`: the call is recorded and the
function runs. -/
def invoke (fuel : Nat) (k : Kernel) (c : Command) (argc : Nat) (argv : List Str)
    (w : World) : Outcome :=
  handlerBody fuel k c.func argc argv { w with calls := w.calls ++ [⟨c.func, argc, argv⟩] }

/-- The text of `cprintf("Unknown command '%s'\n", argv[0])`. -/
def unknownCommandText (arg0 : Str) : Str :=
  "Unknown command '".toList ++ fmt_s arg0 ++ "'\n".toList

/-- Source: the `for` loop of `runcmd` over the table entries from some index
on, followed by the report of an unknown command and `return 0`. -/
def lookupFrom (fuel : Nat) (k : Kernel) (argc : Nat) (argv : List Str) (w : World) :
    List Command → Outcome
  | [] => Outcome.ret 0 (cprintf (unknownCommandText (argv.getD 0 [])) w)
  | c :: cs =>
    if strcmp (argv.getD 0 []) c.name = 0 then invoke fuel k c argc argv w
    else lookupFrom fuel k argc argv w cs

/-- Source: the second part of `runcmd`, `// Lookup and invoke the command`. -/
def lookup (fuel : Nat) (k : Kernel) (argc : Nat) (argv : List Str) (w : World) : Outcome :=
  if argc = 0 then Outcome.ret 0 w else lookupFrom fuel k argc argv w commands

/-- The text of `cprintf("Too many arguments (max %d)\n", MAXARGS)`. -/
def tooManyText : Str :=
  "Too many arguments (max ".toList ++ fmt_d MAXARGS ++ ")\n".toList

/-- Source: `runcmd`.  `fuel` bounds the loop of `mon_backtrace`. -/
def runcmd (fuel : Nat) (k : Kernel) (buf : Str) (w : World) : Outcome :=
  match parseArgs buf with
  | none => Outcome.running w
  | some Parsed.outOfBounds => Outcome.fault
  | some (Parsed.tooMany _) => Outcome.ret 0 (cprintf tooManyText w)
  | some (Parsed.args buf1 argc argv) => lookup fuel k argc (argStrings buf1 argc argv) w

/-! ## The loop `monitor` -/

/-- How a run of `monitor` over a finite supply of `readline` results ends: the
`break` was taken, or the supply is used up with the loop waiting in
`readline`, or a command faulted, or a command used up the step budget. -/
inductive MonitorEnd where
  | left (w : World)
  | waiting (w : World)
  | fault
  | running (w : World)
  deriving DecidableEq

/-- Source: the `while (1)` loop of `monitor`.  The list holds the results of
the successive calls `readline("K> ")`, `none` for `NULL`. -/
def monitorLoop (fuel : Nat) (k : Kernel) : List (Option Str) → World → MonitorEnd
  | [], w => MonitorEnd.waiting w
  | none :: more, w => monitorLoop fuel k more w
  | some buf :: more, w =>
    match runcmd fuel k buf w with
    | Outcome.ret v w1 => if v < 0 then MonitorEnd.left w1 else monitorLoop fuel k more w1
    | Outcome.fault => MonitorEnd.fault
    | Outcome.running w1 => MonitorEnd.running w1

/-- Source: `monitor`. -/
def monitor (fuel : Nat) (k : Kernel) (lines : List (Option Str)) (w : World) : MonitorEnd :=
  let w := cprintf "Welcome to the JOS kernel monitor!\n".toList w
  let w := cprintf "Type 'help' for a list of commands.\n".toList w
  monitorLoop fuel k lines w

/-! ## Notions used in the statements -/

/-- The four whitespace characters: tab (9), carriage return (13), newline
(10) and space (32). -/
def isWhitespace (c : Char) : Bool :=
  c == Char.ofNat 9 || c == Char.ofNat 13 || c == Char.ofNat 10 || c == Char.ofNat 32

/-- The tokens of a line as the spec words them: the line is split at every
whitespace character and the empty pieces are discarded, which leaves the
maximal runs of non-whitespace characters, left to right. -/
def specTokens (line : Str) : List Str :=
  (line.splitOnP isWhitespace).filter (fun t => !t.isEmpty)

/-- The empty world: nothing printed, nothing read, nothing called. -/
def World.empty : World := ⟨[], [], []⟩

/-- A kernel whose memory is unreadable and whose resolver finds nothing. -/
def Kernel.blank : Kernel :=
  ⟨0, fun _ => none, fun _ => (-1, ⟨[], 0, [], 0, 0⟩), 0, 0, 0, 0, 0, 0⟩

/-- The characters a token is made of: neither the terminator nor
whitespace. -/
def isTokenChar (c : Char) : Bool := c != NUL && !isWhitespace c

/-- The command buffer after a parse that runs to the end of the line: up to
the first terminator every whitespace byte has become a terminator, every
other byte is as it was. -/
def zap : Str → Str
  | [] => []
  | c :: cs => if c = NUL then c :: cs else if isWhitespace c then NUL :: zap cs else c :: zap cs

/-! ## Notions used in the statements about `mon_backtrace` -/

/-- Whether the word at an address can be read. -/
def readable (k : Kernel) (a : Nat) : Bool := (k.mem (a % 2 ^ 32)).isSome

/-- The 32-bit word stored at an address (0 where nothing can be read). -/
def word (k : Kernel) (a : Nat) : Nat := ((k.mem (a % 2 ^ 32)).getD 0) % 2 ^ 32

/-- A well-formed chain of frames from a starting frame pointer: the list of
frame pointers `fp_1, ..., fp_N`, the start being `fp_1`, each non-zero, the
word at `fp_k` being `fp_(k+1)` and the word at `fp_N` being 0. -/
def isChain (k : Kernel) : Nat → List Nat → Bool
  | start, [] => start == 0
  | start, fp :: fps => start == fp && fp != 0 && isChain k (word k fp) fps

/-- The words the walker reads on a chain are readable: the chain word of
every frame, and the six words at offsets 1 to 6 from every frame pointer and
from the final 0. -/
def walkReadable (k : Kernel) (chain : List Nat) : Bool :=
  chain.all (fun fp => readable k fp) &&
  (chain ++ [0]).all (fun fp => (List.range 6).all (fun i => readable k (fp + 4 * (i + 1))))

/-- The five words stored at `fp + 2 .. fp + 6` words. -/
def frameArgs (k : Kernel) (fp : Nat) : List Nat :=
  [word k (fp + 4 * 2), word k (fp + 4 * 3), word k (fp + 4 * 4), word k (fp + 4 * 5),
   word k (fp + 4 * 6)]

/-- The summary line of the frame at `fp`: `fp`, the return address stored at
`fp + 1` word, and the five words stored at `fp + 2 .. fp + 6` words. -/
def summaryOf (k : Kernel) (fp : Nat) : Str :=
  summaryLine fp (word k (fp + 4 * 1)) (frameArgs k fp)

/-- The symbol line of the frame at `fp`, present when the resolver, asked for
the return address of that frame, answers 0. -/
def symbolOut (k : Kernel) (fp : Nat) : List Str :=
  if (k.debuginfo_eip (word k (fp + 4 * 1))).1 = 0 then
    [symbolLine (k.debuginfo_eip (word k (fp + 4 * 1))).2
      (sub32 (word k (fp + 4 * 1)) (k.debuginfo_eip (word k (fp + 4 * 1))).2.eip_fn_addr)]
  else []

/-- What is printed for the frame at `fp`. -/
def frameOut (k : Kernel) (fp : Nat) : List Str := summaryOf k fp :: symbolOut k fp

/-- The addresses read by the six assignments to `eip` and `arg`. -/
def frameWordAddrs (ebp : Nat) : List Nat :=
  [(ebp + 4 * 1) % 2 ^ 32, (ebp + 4 * 2) % 2 ^ 32, (ebp + 4 * 3) % 2 ^ 32,
   (ebp + 4 * 4) % 2 ^ 32, (ebp + 4 * 5) % 2 ^ 32, (ebp + 4 * 6) % 2 ^ 32]

/-- The addresses read in the pass of the loop for the frame at `fp`, in
order: the chain word, the six words of the next frame, the return address
(once more when the resolver answers 0), the chain word again. -/
def frameReads (k : Kernel) (fp : Nat) : List Nat :=
  [fp % 2 ^ 32] ++ frameWordAddrs (word k fp) ++ [(fp + 4 * 1) % 2 ^ 32]
    ++ (if (k.debuginfo_eip (word k (fp + 4 * 1))).1 = 0 then [(fp + 4 * 1) % 2 ^ 32] else [])
    ++ [fp % 2 ^ 32]

/-- Whether a chunk of output is a summary line: it starts with `ebp `. -/
def isSummaryLine (s : Str) : Bool := s.take 4 == "ebp ".toList

/-- A kernel with a stack of two frames, at 256 and 512: the chain word of
the first is 512, that of the second 0, every other word holds a quarter of
its address; the resolver knows the return address 65 of the first frame
only, as offset 5 into a function whose name is the first 9 characters of a
longer buffer. -/
def Kernel.twoFrames : Kernel :=
  { Kernel.blank with
    ebp := 256
    mem := fun a => if a = 256 then some 512 else if a = 512 then some 0 else some (a / 4)
    debuginfo_eip := fun a =>
      if a = 65 then (0, ⟨"kern/init.c".toList, 24, "i386_init:F(0,1)".toList, 9, 60⟩)
      else (-1, ⟨"<unknown>".toList, 0, "<unknown>".toList, 9, a⟩) }

/-! ## Notions used in the further statements about `mon_backtrace` -/

/-- Whether a chunk of output is a symbol line: it starts with two tabs. -/
def isSymbolLine (s : Str) : Bool := s.take 2 == "\t\t".toList

/-- The stack of two frames of `Kernel.twoFrames` in a memory where exactly
the words at offsets 0 to 6 words from the two frame pointers 256 and 512 can
be read. -/
def Kernel.framesOnly : Kernel :=
  { Kernel.twoFrames with
    mem := fun a =>
      if (256 ≤ a ∧ a ≤ 280 ∧ a % 4 = 0) ∨ (512 ≤ a ∧ a ≤ 536 ∧ a % 4 = 0) then
        Kernel.twoFrames.mem a
      else none }

/-- The stack of `Kernel.framesOnly` with a resolver that reports not-found
for every address. -/
def Kernel.framesOnlyNotFound : Kernel :=
  { Kernel.framesOnly with debuginfo_eip := fun _ => (-1, ⟨[], 0, [], 0, 0⟩) }

/-- The stack of `Kernel.framesOnly` with a resolver that knows the return
address 129 of the last frame only, as offset 29 into a function. -/
def Kernel.framesOnlyLast : Kernel :=
  { Kernel.framesOnly with
    debuginfo_eip := fun a =>
      if a = 129 then (0, ⟨"kern/entry.S".toList, 83, "relocated:F".toList, 9, 100⟩)
      else (-1, ⟨[], 0, [], 0, 0⟩) }

/-- Where the local object `struct Eipdebuginfo info` of `mon_backtrace` lies
and what the call `debuginfo_eip(ptr_ebp[1], &info)` leaves in it: the address
`&info`, the number of 32-bit words of the object, and the word it holds at
index `i` after a query for an address.  The layout of the object and the
function that fills it are outside the sources at hand; they are parameters. -/
structure InfoObject where
  addr : Nat
  size : Nat
  image : Nat → Nat → Nat

/-- The memory after `debuginfo_eip(query, &info)` has filled the object
`info`: the words of the object hold its new content, every other word is as
it was. -/
def writeInfo (obj : InfoObject) (query : Nat) (mem : Nat → Option Nat) : Nat → Option Nat :=
  fun x =>
    match (List.range obj.size).find? (fun i => x == (obj.addr + 4 * i) % 2 ^ 32) with
    | some i => some (obj.image query i % 2 ^ 32)
    | none => mem x

/-- Source: one pass through the body of the `while` loop of `mon_backtrace`,
with the object `info` in memory: the call of `debuginfo_eip` writes it, and
the reads that follow the call (`ptr_ebp[1]` for `fn_offset`, `*ptr_ebp` for
the second update of `ebp`) see the memory after the write.  The other locals
(`ebp`, `eip`, `arg`, `ptr_ebp`), whose address is never taken, are held
outside the memory.  With `second = true` this is the body as written; with
`second = false` it is the body with a single update of the frame pointer, as
the spec proposes to reproduce it: the last statement `ebp = *ptr_ebp;` is
left out and the value assigned by `ebp = *(uint32_t *)ebp;` is kept.  The
result is the new `ebp`, `eip`, `arg`, world and machine (the kernel with its
memory after the pass), or nothing when a read faults. -/
def backtraceBodyStack (obj : InfoObject) (second : Bool) (k : Kernel) (ebp eip : Nat)
    (arg : List Nat) (w : World) : Option (Nat × Nat × List Nat × World × Kernel) := do
  let ptr_ebp := ebp
  let w := cprintf (summaryLine ebp eip arg) w
  let (ebp1, w) ← load k ebp w
  let (eip1, arg1, w) ← readFrame k ebp1 w
  let (ra, w) ← load k (ptr_ebp + 4 * 1) w
  let found := k.debuginfo_eip ra
  let k1 : Kernel := { k with mem := writeInfo obj ra k.mem }
  let info := found.2
  let w ← (if found.1 = 0 then do
      let (ra2, w) ← load k1 (ptr_ebp + 4 * 1) w
      let fn_offset := sub32 ra2 info.eip_fn_addr
      pure (cprintf (symbolLine info fn_offset) w)
    else pure w)
  if second = true then do
    let (ebp2, w) ← load k1 ptr_ebp w
    pure (ebp2, eip1, arg1, w, k1)
  else pure (ebp1, eip1, arg1, w, k1)

/-- Source: the `while (ebp != 0x00)` loop of `mon_backtrace` followed by
`return 0`, over `backtraceBodyStack`.  The first number bounds the number of
times the loop condition is evaluated. -/
def backtraceLoopStack (obj : InfoObject) (second : Bool) :
    Nat → Kernel → Nat → Nat → List Nat → World → Outcome
  | 0, _, _, _, _, w => Outcome.running w
  | fuel + 1, k, ebp, eip, arg, w =>
    if ebp ≠ 0 then
      match backtraceBodyStack obj second k ebp eip arg w with
      | none => Outcome.fault
      | some (ebp1, eip1, arg1, w1, k1) => backtraceLoopStack obj second fuel k1 ebp1 eip1 arg1 w1
    else Outcome.ret 0 w

/-- Source: `mon_backtrace`, with the object `info` in memory
(`second = true`: as written; `second = false`: with a single update of the
frame pointer per pass). -/
def mon_backtraceStack (obj : InfoObject) (second : Bool) (fuel : Nat) (k : Kernel)
    (_argc : Nat) (_argv : List Str) (w : World) : Outcome :=
  let ebp := k.ebp % 2 ^ 32
  match readFrame k ebp w with
  | none => Outcome.fault
  | some (eip, arg, w) =>
    backtraceLoopStack obj second fuel k ebp eip arg (cprintf "Stack backtrace:\n".toList w)

/-- What can be observed of the end of a call: how it ends, the value
returned, the console and the calls made (the record of the addresses read is
left out). -/
def Outcome.observed : Outcome → Outcome
  | Outcome.ret v w => Outcome.ret v { w with reads := [] }
  | Outcome.fault => Outcome.fault
  | Outcome.running w => Outcome.running { w with reads := [] }

/-! ## Notions used in the further statements about `runcmd` -/

/-- How the parse may change one byte of the buffer: not at all, or from a
whitespace character to the terminator. -/
def zapped (old new : Char) : Prop := new = old ∨ (isWhitespace old = true ∧ new = NUL)

/-- The buffer a parse ends with, whichever way it ends (nothing after a write
outside `argv`). -/
def Parsed.buffer : Parsed → Option Str
  | Parsed.tooMany buf => some buf
  | Parsed.args buf _ _ => some buf
  | Parsed.outOfBounds => none

/-- The value of a hexadecimal digit (0 for any other character). -/
def hexValue (c : Char) : Nat :=
  if Char.ofNat 48 ≤ c ∧ c ≤ Char.ofNat 57 then c.toNat - 48
  else if Char.ofNat 97 ≤ c ∧ c ≤ Char.ofNat 102 then c.toNat - 87
  else 0

/-! ## Auxiliary facts: characters -/

theorem isWhitespace_NUL : isWhitespace NUL = false := by decide

theorem strchr_WHITESPACE (c : Char) : strchr WHITESPACE c = isWhitespace c := by
  have h : WHITESPACE = [Char.ofNat 9, Char.ofNat 13, Char.ofNat 10, Char.ofNat 32] := by decide
  have h9 : Char.ofNat 9 ≠ NUL := by decide
  have h13 : Char.ofNat 13 ≠ NUL := by decide
  have h10 : Char.ofNat 10 ≠ NUL := by decide
  have h32 : Char.ofNat 32 ≠ NUL := by decide
  rw [h]
  simp only [strchr, isWhitespace, h9, h13, h10, h32, if_false]
  by_cases e9 : Char.ofNat 9 = c
  · subst e9; simp
  by_cases e13 : Char.ofNat 13 = c
  · subst e13; simp
  by_cases e10 : Char.ofNat 10 = c
  · subst e10; simp
  by_cases e32 : Char.ofNat 32 = c
  · subst e32; simp
  have e9b : ¬ c = Char.ofNat 9 := fun e => e9 e.symm
  have e13b : ¬ c = Char.ofNat 13 := fun e => e13 e.symm
  have e10b : ¬ c = Char.ofNat 10 := fun e => e10 e.symm
  have e32b : ¬ c = Char.ofNat 32 := fun e => e32 e.symm
  simp [e9, e13, e10, e32, e9b, e13b, e10b, e32b]

theorem ne_NUL_of_isWhitespace {c : Char} (h : isWhitespace c = true) : c ≠ NUL := by
  intro e; rw [e, isWhitespace_NUL] at h; exact Bool.noConfusion h

theorem gobble_eq (r : Str) :
    gobble r = ((r.takeWhile isWhitespace).map (fun _ => NUL), r.dropWhile isWhitespace) := by
  induction r with
  | nil => rfl
  | cons c cs ih =>
    by_cases hc : isWhitespace c = true
    · have hn := ne_NUL_of_isWhitespace hc
      simp [gobble, strchr_WHITESPACE, hc, hn, ih, List.takeWhile, List.dropWhile]
    · simp [gobble, strchr_WHITESPACE, hc, List.takeWhile, List.dropWhile]

theorem scanArg_eq (r : Str) :
    scanArg r = (r.takeWhile isTokenChar, r.dropWhile isTokenChar) := by
  induction r with
  | nil => rfl
  | cons c cs ih =>
    by_cases hc : isTokenChar c = true
    · have hc2 := hc
      simp only [isTokenChar, Bool.and_eq_true, bne_iff_ne, ne_eq, Bool.not_eq_true',] at hc2
      simp [scanArg, strchr_WHITESPACE, hc, hc2.1, hc2.2, ih, List.takeWhile, List.dropWhile]
    · have hc2 := hc
      simp only [isTokenChar, Bool.and_eq_true, bne_iff_ne, ne_eq, Bool.not_eq_true', not_and,
        Bool.not_eq_false] at hc2
      by_cases hn : c = NUL
      · subst hn
        have hc3 : isTokenChar NUL = false := by decide
        simp [scanArg, hc3, List.takeWhile, List.dropWhile]
      · simp [scanArg, strchr_WHITESPACE, hc, hn, hc2 hn, List.takeWhile, List.dropWhile]

/-! ## Auxiliary facts: tokens -/

theorem specTokens_nil : specTokens [] = [] := by decide

theorem cstr_of_deref_NUL {r : Str} (h : deref r = NUL) : cstr r = [] := by
  cases r with
  | nil => rfl
  | cons c cs =>
    have : c = NUL := h
    simp [cstr, this]

theorem cstr_cons_of_ne {c : Char} (h : c ≠ NUL) (cs : Str) : cstr (c :: cs) = c :: cstr cs := by
  simp [cstr, h]

theorem specTokens_cons_ws {c : Char} (h : isWhitespace c = true) (l : Str) :
    specTokens (c :: l) = specTokens l := by
  simp [specTokens, List.splitOnP_cons, h]

theorem specTokens_cstr_dropWhile (r : Str) :
    specTokens (cstr (r.dropWhile isWhitespace)) = specTokens (cstr r) := by
  induction r with
  | nil => rfl
  | cons c cs ih =>
    by_cases hc : isWhitespace c = true
    · rw [List.dropWhile_cons_of_pos hc, ih, cstr_cons_of_ne (ne_NUL_of_isWhitespace hc),
        specTokens_cons_ws hc]
    · rw [List.dropWhile_cons_of_neg hc]

theorem cstr_takeWhile_dropWhile (r : Str) :
    cstr r = r.takeWhile isTokenChar ++ cstr (r.dropWhile isTokenChar) := by
  induction r with
  | nil => rfl
  | cons c cs ih =>
    by_cases hc : isTokenChar c = true
    · have hn : c ≠ NUL := by
        intro e; subst e; exact absurd hc (by decide)
      rw [List.takeWhile_cons_of_pos hc, List.dropWhile_cons_of_pos hc, cstr_cons_of_ne hn, ih]
      rfl
    · rw [List.takeWhile_cons_of_neg hc, List.dropWhile_cons_of_neg hc]
      rfl

theorem not_ws_of_mem_takeWhile {r : Str} {c : Char} (h : c ∈ r.takeWhile isTokenChar) :
    ¬ isWhitespace c = true := by
  have := List.mem_takeWhile_imp h
  simp only [isTokenChar, Bool.and_eq_true, Bool.not_eq_true'] at this
  simp [this.2]

/-- After the characters of a token the buffer ends, or holds a terminator, or
holds a whitespace character. -/
theorem dropWhile_token_cases (r : Str) :
    r.dropWhile isTokenChar = [] ∨
    (∃ ds, r.dropWhile isTokenChar = NUL :: ds) ∨
    (∃ d ds, r.dropWhile isTokenChar = d :: ds ∧ isWhitespace d = true) := by
  cases h : r.dropWhile isTokenChar with
  | nil => exact Or.inl rfl
  | cons d ds =>
    have hd : ¬ isTokenChar d = true := by
      have := List.head_dropWhile_not isTokenChar r (by rw [h]; exact List.cons_ne_nil _ _)
      simpa [h] using this
    by_cases hn : d = NUL
    · exact Or.inr (Or.inl ⟨ds, by rw [hn]⟩)
    · refine Or.inr (Or.inr ⟨d, ds, rfl, ?_⟩)
      simpa [isTokenChar, hn] using hd

theorem specTokens_token_append (tok : Str) (hne : tok ≠ [])
    (hws : ∀ c ∈ tok, ¬ isWhitespace c = true) (r2 : Str)
    (h2 : r2 = [] ∨ (∃ ds, r2 = NUL :: ds) ∨ (∃ d ds, r2 = d :: ds ∧ isWhitespace d = true)) :
    specTokens (tok ++ cstr r2) = tok :: specTokens (cstr r2) := by
  have single : specTokens tok = [tok] := by
    simp [specTokens, List.splitOnP_eq_single isWhitespace tok hws, hne]
  rcases h2 with h | ⟨ds, h⟩ | ⟨d, ds, h, hd⟩
  · subst h
    simpa [cstr, specTokens_nil] using single
  · subst h
    have : cstr (NUL :: ds) = [] := cstr_of_deref_NUL rfl
    rw [this]
    simpa [specTokens_nil] using single
  · subst h
    rw [cstr_cons_of_ne (ne_NUL_of_isWhitespace hd), specTokens_cons_ws hd]
    simp [specTokens, List.splitOnP_first isWhitespace tok hws d hd, hne]

/-- The tokens of the line held by a buffer that starts with a token
character: the token passed over by `scanArg`, then the tokens of the rest. -/
theorem specTokens_cstr_token (r : Str) (h : isTokenChar (deref r) = true) :
    specTokens (cstr r) =
      r.takeWhile isTokenChar :: specTokens (cstr (r.dropWhile isTokenChar)) ∧
    r.takeWhile isTokenChar ≠ [] := by
  have hne : r.takeWhile isTokenChar ≠ [] := by
    cases r with
    | nil => exact absurd h (by decide)
    | cons c cs =>
      have hc : isTokenChar c = true := h
      rw [List.takeWhile_cons_of_pos hc]
      exact List.cons_ne_nil _ _
  refine ⟨?_, hne⟩
  rw [cstr_takeWhile_dropWhile r]
  exact specTokens_token_append _ hne (fun c hc => not_ws_of_mem_takeWhile hc) _
    (dropWhile_token_cases r)

/-! ## Auxiliary facts: the buffer after parsing -/

theorem zap_of_deref_NUL {r : Str} (h : deref r = NUL) : zap r = r := by
  cases r with
  | nil => rfl
  | cons c cs =>
    have : c = NUL := h
    simp [zap, this]

theorem zap_gobble (r : Str) :
    zap r = (r.takeWhile isWhitespace).map (fun _ => NUL) ++ zap (r.dropWhile isWhitespace) := by
  induction r with
  | nil => rfl
  | cons c cs ih =>
    by_cases hc : isWhitespace c = true
    · rw [List.takeWhile_cons_of_pos hc, List.dropWhile_cons_of_pos hc]
      simp [zap, hc, ne_NUL_of_isWhitespace hc, ih]
    · rw [List.takeWhile_cons_of_neg hc, List.dropWhile_cons_of_neg hc]
      rfl

theorem zap_scanArg (r : Str) :
    zap r = r.takeWhile isTokenChar ++ zap (r.dropWhile isTokenChar) := by
  induction r with
  | nil => rfl
  | cons c cs ih =>
    by_cases hc : isTokenChar c = true
    · have hc2 := hc
      simp only [isTokenChar, Bool.and_eq_true, bne_iff_ne, ne_eq, Bool.not_eq_true'] at hc2
      rw [List.takeWhile_cons_of_pos hc, List.dropWhile_cons_of_pos hc]
      simp [zap, hc2.1, hc2.2, ih]
    · rw [List.takeWhile_cons_of_neg hc, List.dropWhile_cons_of_neg hc]
      rfl

theorem deref_zap_dropWhile (r : Str) : deref (zap (r.dropWhile isTokenChar)) = NUL := by
  rcases dropWhile_token_cases r with h | ⟨ds, h⟩ | ⟨d, ds, h, hd⟩
  · rw [h]; rfl
  · rw [h]; simp [zap, deref]
  · rw [h]; simp [zap, deref, hd, ne_NUL_of_isWhitespace hd]

theorem cstr_token_append (r x : Str) (hx : deref x = NUL) :
    cstr (r.takeWhile isTokenChar ++ x) = r.takeWhile isTokenChar := by
  induction r with
  | nil => simpa using cstr_of_deref_NUL hx
  | cons c cs ih =>
    by_cases hc : isTokenChar c = true
    · have hn : c ≠ NUL := by
        intro e; subst e; exact absurd hc (by decide)
      rw [List.takeWhile_cons_of_pos hc, List.cons_append, cstr_cons_of_ne hn, ih]
    · rw [List.takeWhile_cons_of_neg hc]
      simpa using cstr_of_deref_NUL hx

/-! ## Auxiliary facts: the parsing loop -/

theorem length_dropWhile_le (p : Char → Bool) (l : Str) : (l.dropWhile p).length ≤ l.length := by
  induction l with
  | nil => simp
  | cons c cs ih =>
    by_cases hc : p c = true
    · rw [List.dropWhile_cons_of_pos hc]; simp; omega
    · rw [List.dropWhile_cons_of_neg hc]

theorem length_dropWhile_token_lt (r : Str) (h : isTokenChar (deref r) = true) :
    (r.dropWhile isTokenChar).length < r.length := by
  cases r with
  | nil => exact absurd h (by decide)
  | cons c cs =>
    have hc : isTokenChar c = true := h
    rw [List.dropWhile_cons_of_pos hc]
    have := length_dropWhile_le isTokenChar cs
    simp; omega

theorem isTokenChar_deref_dropWhile (rest : Str)
    (h : deref (rest.dropWhile isWhitespace) ≠ NUL) :
    isTokenChar (deref (rest.dropWhile isWhitespace)) = true := by
  cases hr : rest.dropWhile isWhitespace with
  | nil => rw [hr] at h; exact absurd rfl h
  | cons d ds =>
    have hd : ¬ isWhitespace d = true := by
      have := List.head_dropWhile_not isWhitespace rest (by rw [hr]; exact List.cons_ne_nil _ _)
      simpa [hr] using this
    rw [hr] at h
    have hn : d ≠ NUL := h
    simp [deref, isTokenChar, hn, hd]

theorem slotStr_ptr_append (d x : Str) : slotStr (d ++ x) (Slot.ptr d.length) = cstr x := by
  simp [slotStr]

/-- What the parsing loop computes, started anywhere in the buffer with `argc`
arguments already saved: with room for all the tokens still ahead it ends at
its `break` with the buffer zapped, the count raised by the number of tokens
and the new elements of `argv` pointing at the tokens; without room it ends at
the report of too many arguments. -/
theorem parseLoop_spec : ∀ (fuel : Nat) (done rest : Str) (argc : Nat) (argv : Nat → Slot),
    rest.length < fuel → argc < MAXARGS →
    (argc + (specTokens (cstr rest)).length < MAXARGS →
      ∃ argv1, parseLoop fuel done rest argc argv
          = some (Parsed.args (done ++ zap rest) (argc + (specTokens (cstr rest)).length) argv1)
        ∧ (∀ i, i < argc → argv1 i = argv i)
        ∧ (∀ i, argc + (specTokens (cstr rest)).length ≤ i → argv1 i = argv i)
        ∧ (List.range (specTokens (cstr rest)).length).map
            (fun j => slotStr (done ++ zap rest) (argv1 (argc + j))) = specTokens (cstr rest))
    ∧ (MAXARGS ≤ argc + (specTokens (cstr rest)).length →
      ∃ b, parseLoop fuel done rest argc argv = some (Parsed.tooMany b)) := by
  intro fuel
  induction fuel with
  | zero => intro done rest argc argv h; exact absurd h (Nat.not_lt_zero _)
  | succ fuel ih =>
    intro done rest argc argv hlen hargc
    have hT := specTokens_cstr_dropWhile rest
    have hZ := zap_gobble rest
    simp only [parseLoop, gobble_eq, scanArg_eq]
    by_cases h0 : deref (rest.dropWhile isWhitespace) = NUL
    · have hnil : specTokens (cstr rest) = [] := by
        rw [← hT, cstr_of_deref_NUL h0, specTokens_nil]
      rw [if_pos h0, hnil]
      constructor
      · intro _
        refine ⟨argv, ?_, fun _ _ => rfl, fun _ _ => rfl, rfl⟩
        rw [hZ, zap_of_deref_NUL h0, List.append_assoc]
        rfl
      · intro h; simp at h; omega
    · have htc := isTokenChar_deref_dropWhile rest h0
      obtain ⟨htok, hne⟩ := specTokens_cstr_token _ htc
      have hlt := length_dropWhile_token_lt _ htc
      have hle := length_dropWhile_le isWhitespace rest
      have hZ2 := zap_scanArg (rest.dropWhile isWhitespace)
      rw [if_neg h0]
      rw [← hT, htok]
      by_cases h15 : argc = MAXARGS - 1
      · rw [if_pos h15]
        constructor
        · intro h; simp [MAXARGS] at h h15; omega
        · intro _; exact ⟨_, rfl⟩
      · rw [if_neg h15]
        obtain ⟨argvN, hw, hN⟩ : ∃ a, argvWrite argv argc
            (Slot.ptr (done ++ (rest.takeWhile isWhitespace).map (fun _ => NUL)).length) = some a
            ∧ ∀ j, a j = if j = argc then
                Slot.ptr (done ++ (rest.takeWhile isWhitespace).map (fun _ => NUL)).length
                else argv j := ⟨_, by simp [argvWrite, hargc], fun _ => rfl⟩
        rw [hw]
        simp only []
        have hargc1 : argc + 1 < MAXARGS := by simp [MAXARGS] at h15 hargc ⊢; omega
        obtain ⟨ih1, ih2⟩ := ih
          ((done ++ (rest.takeWhile isWhitespace).map (fun _ => NUL))
            ++ (rest.dropWhile isWhitespace).takeWhile isTokenChar)
          ((rest.dropWhile isWhitespace).dropWhile isTokenChar) (argc + 1) argvN
          (by omega) hargc1
        have hbuf : (done ++ (rest.takeWhile isWhitespace).map (fun _ => NUL))
            ++ (rest.dropWhile isWhitespace).takeWhile isTokenChar
            ++ zap ((rest.dropWhile isWhitespace).dropWhile isTokenChar) = done ++ zap rest := by
          rw [hZ, hZ2]; simp [List.append_assoc]
        constructor
        · intro hroom
          obtain ⟨argv2, e, hold, hnew, hstr⟩ := ih1 (by simp at hroom ⊢; omega)
          refine ⟨argv2, ?_, ?_, ?_, ?_⟩
          · rw [e, hbuf, List.length_cons, Nat.add_assoc, Nat.add_comm 1]
          · intro i hi
            rw [hold i (by omega), hN]
            simp [Nat.ne_of_lt hi]
          · intro i hi
            simp at hi
            rw [hnew i (by omega), hN]
            have : i ≠ argc := by omega
            simp [this]
          · rw [hbuf] at hstr
            simp only [List.length_cons, List.range_succ_eq_map, List.map_cons, List.map_map]
            congr 1
            · rw [Nat.add_zero, hold argc (by omega), hN]
              simp only [if_true]
              rw [hZ, hZ2, ← List.append_assoc, slotStr_ptr_append]
              exact cstr_token_append _ _ (deref_zap_dropWhile _)
            · refine Eq.trans ?_ hstr
              apply List.map_congr_left
              intro j _
              show slotStr (done ++ zap rest) (argv2 (argc + (j + 1)))
                = slotStr (done ++ zap rest) (argv2 (argc + 1 + j))
              rw [Nat.add_assoc, Nat.add_comm 1 j]
        · intro hfull
          exact ih2 (by simp at hfull ⊢; omega)

/-! ## Auxiliary facts: `strcmp` -/

theorem toNat_eq_of_char {c d : Char} (h : c.toNat = d.toNat) : c = d := by
  apply Char.ext
  exact UInt32.toNat.inj h

theorem toNat_eq_zero_iff (c : Char) : (c.toNat : Int) = 0 ↔ c = NUL := by
  constructor
  · intro h
    apply toNat_eq_of_char
    have : c.toNat = 0 := by exact_mod_cast h
    rw [this]; rfl
  · intro h; subst h; rfl

theorem cstr_cons_NUL (p : Str) : cstr (NUL :: p) = [] := cstr_of_deref_NUL rfl

theorem strcmp_eq_zero_iff : ∀ (p q : Str), strcmp p q = 0 ↔ cstr p = cstr q := by
  intro p
  induction p with
  | nil =>
    intro q
    cases q with
    | nil => simp [strcmp]
    | cons d q =>
      by_cases hd : d = NUL
      · subst hd
        rw [cstr_cons_NUL]
        exact ⟨fun _ => rfl, fun _ => rfl⟩
      · have hz : ¬ (d.toNat : Int) = 0 := fun h => hd ((toNat_eq_zero_iff d).1 h)
        simp only [strcmp, cstr_cons_of_ne hd]
        constructor
        · intro h; exact absurd (by omega) hz
        · intro h; exact absurd h (by simp [cstr])
  | cons c p ih =>
    intro q
    cases q with
    | nil =>
      by_cases hc : c = NUL
      · subst hc
        rw [cstr_cons_NUL]
        exact ⟨fun _ => rfl, fun _ => rfl⟩
      · have hz : ¬ (c.toNat : Int) = 0 := fun h => hc ((toNat_eq_zero_iff c).1 h)
        simp only [strcmp, cstr_cons_of_ne hc]
        constructor
        · intro h; exact absurd (by omega) hz
        · intro h; exact absurd h (by simp [cstr])
    | cons d q =>
      by_cases hcd : c ≠ NUL ∧ c = d
      · obtain ⟨hc, rfl⟩ := hcd
        have e : strcmp (c :: p) (c :: q) = strcmp p q := by simp [strcmp, hc]
        rw [e, cstr_cons_of_ne hc, cstr_cons_of_ne hc, ih q]
        constructor
        · intro h; rw [h]
        · intro h; exact List.tail_eq_of_cons_eq h
      · simp only [strcmp, if_neg hcd]
        by_cases hc : c = NUL
        · subst hc
          rw [cstr_cons_NUL]
          by_cases hd : d = NUL
          · subst hd; rw [cstr_cons_NUL]; simp
          · rw [cstr_cons_of_ne hd]
            have hz : ¬ (d.toNat : Int) = 0 := fun h => hd ((toNat_eq_zero_iff d).1 h)
            have h0 : (NUL.toNat : Int) = 0 := rfl
            constructor
            · intro h; exact absurd (by omega) hz
            · intro h; exact absurd h.symm (List.cons_ne_nil _ _)
        · have hne : c ≠ d := fun e => hcd ⟨hc, e⟩
          rw [cstr_cons_of_ne hc]
          constructor
          · intro h
            exact absurd (toNat_eq_of_char (by omega)) hne
          · intro h
            by_cases hd : d = NUL
            · subst hd; rw [cstr_cons_NUL] at h; exact absurd h (List.cons_ne_nil _ _)
            · rw [cstr_cons_of_ne hd] at h
              exact absurd (List.head_eq_of_cons_eq h) hne

/-! ## Auxiliary facts: the pieces of a split line -/

theorem mem_of_mem_splitOnP (p : Char → Bool) : ∀ (l : Str) (t : Str), t ∈ l.splitOnP p →
    ∀ c ∈ t, c ∈ l ∧ ¬ p c = true := by
  intro l
  induction l with
  | nil =>
    intro t ht c hc
    simp [List.splitOnP_nil] at ht
    subst ht
    simp at hc
  | cons x xs ih =>
    intro t ht c hc
    rw [List.splitOnP_cons] at ht
    by_cases hx : p x = true
    · rw [if_pos hx] at ht
      rcases List.mem_cons.1 ht with h | h
      · subst h; simp at hc
      · obtain ⟨h1, h2⟩ := ih t h c hc
        exact ⟨List.mem_cons_of_mem _ h1, h2⟩
    · rw [if_neg hx] at ht
      cases hs : xs.splitOnP p with
      | nil => exact absurd hs (List.splitOnP_ne_nil p xs)
      | cons a as =>
        rw [hs] at ht ih
        simp only [List.modifyHead_cons, List.mem_cons] at ht
        rcases ht with h | h
        · subst h
          rcases List.mem_cons.1 hc with h | h
          · subst h; exact ⟨List.mem_cons_self _ _, hx⟩
          · obtain ⟨h1, h2⟩ := ih a (List.mem_cons_self _ _) c h
            exact ⟨List.mem_cons_of_mem _ h1, h2⟩
        · obtain ⟨h1, h2⟩ := ih t (List.mem_cons_of_mem _ h) c hc
          exact ⟨List.mem_cons_of_mem _ h1, h2⟩

/-- Every token is non-empty, and its characters are characters of the line
that are not whitespace. -/
theorem specTokens_mem {line t : Str} (h : t ∈ specTokens line) :
    t ≠ [] ∧ ∀ c ∈ t, c ∈ line ∧ isWhitespace c = false := by
  simp only [specTokens, List.mem_filter, Bool.not_eq_true', List.isEmpty_eq_false] at h
  refine ⟨h.2, fun c hc => ?_⟩
  obtain ⟨h1, h2⟩ := mem_of_mem_splitOnP isWhitespace line t h.1 c hc
  exact ⟨h1, by simpa using h2⟩

theorem cstr_eq_self {l : Str} (h : ∀ c ∈ l, c ≠ NUL) : cstr l = l := by
  simp only [cstr, List.takeWhile_eq_self_iff]
  intro c hc
  simpa using h c hc

theorem ne_NUL_of_mem_cstr {l : Str} {c : Char} (h : c ∈ cstr l) : c ≠ NUL := by
  have := List.mem_takeWhile_imp h
  simpa using this

/-- A token of the line held by a buffer contains no terminator. -/
theorem cstr_token {buf t : Str} (h : t ∈ specTokens (cstr buf)) : cstr t = t :=
  cstr_eq_self (fun c hc => ne_NUL_of_mem_cstr ((specTokens_mem h).2 c hc).1)

theorem specTokens_all_ws {line : Str} (h : ∀ c ∈ line, isWhitespace c = true) :
    specTokens line = [] := by
  induction line with
  | nil => exact specTokens_nil
  | cons c cs ih =>
    rw [specTokens_cons_ws (h c (List.mem_cons_self _ _))]
    exact ih (fun d hd => h d (List.mem_cons_of_mem _ hd))

/-! ## Auxiliary facts: `parseArgs` and `runcmd` -/

/-- A line with fewer than `MAXARGS` tokens is parsed to the end: `argc` is
the number of tokens, the strings behind `argv[0..argc-1]` are the tokens, and
`argv[argc]` is null. -/
theorem parseArgs_accept (buf : Str) (h : (specTokens (cstr buf)).length < MAXARGS) :
    ∃ argv, parseArgs buf = some (Parsed.args (zap buf) (specTokens (cstr buf)).length argv)
      ∧ argStrings (zap buf) (specTokens (cstr buf)).length argv = specTokens (cstr buf)
      ∧ argv (specTokens (cstr buf)).length = Slot.null := by
  have h0 : argvWrite (fun _ => Slot.junk) 0 Slot.null
      = some (fun j => if j = 0 then Slot.null else Slot.junk) := rfl
  obtain ⟨argv1, e, _, _, hstr⟩ :=
    (parseLoop_spec (buf.length + 1) [] buf 0 (fun j => if j = 0 then Slot.null else Slot.junk)
      (Nat.lt_succ_self _) (by decide)).1 (by simpa using h)
  simp only [Nat.zero_add, List.nil_append] at e hstr
  refine ⟨fun j => if j = (specTokens (cstr buf)).length then Slot.null else argv1 j, ?_, ?_, ?_⟩
  · unfold parseArgs
    rw [h0]
    simp only []
    rw [e]
    simp only [argvWrite, if_pos h]
  · refine Eq.trans ?_ hstr
    simp only [argStrings]
    apply List.map_congr_left
    intro j hj
    have : j ≠ (specTokens (cstr buf)).length := Nat.ne_of_lt (List.mem_range.1 hj)
    simp [this]
  · simp

/-- A line with `MAXARGS` tokens or more ends the parse at the report of too
many arguments. -/
theorem parseArgs_reject (buf : Str) (h : MAXARGS ≤ (specTokens (cstr buf)).length) :
    ∃ b, parseArgs buf = some (Parsed.tooMany b) := by
  have h0 : argvWrite (fun _ => Slot.junk) 0 Slot.null
      = some (fun j => if j = 0 then Slot.null else Slot.junk) := rfl
  obtain ⟨b, e⟩ :=
    (parseLoop_spec (buf.length + 1) [] buf 0 (fun j => if j = 0 then Slot.null else Slot.junk)
      (Nat.lt_succ_self _) (by decide)).2 (by simpa using h)
  refine ⟨b, ?_⟩
  unfold parseArgs
  rw [h0]
  simp only []
  rw [e]

theorem runcmd_accept (fuel : Nat) (k : Kernel) (buf : Str) (w : World)
    (h : (specTokens (cstr buf)).length < MAXARGS) :
    runcmd fuel k buf w
      = lookup fuel k (specTokens (cstr buf)).length (specTokens (cstr buf)) w := by
  obtain ⟨argv, e, hs, _⟩ := parseArgs_accept buf h
  simp only [runcmd, e, hs]

theorem tooManyText_eq : tooManyText = "Too many arguments (max 16)\n".toList := by decide

theorem runcmd_reject (fuel : Nat) (k : Kernel) (buf : Str) (w : World)
    (h : MAXARGS ≤ (specTokens (cstr buf)).length) :
    runcmd fuel k buf w = Outcome.ret 0 (cprintf tooManyText w) := by
  obtain ⟨b, e⟩ := parseArgs_reject buf h
  simp only [runcmd, e]

/-! ## Auxiliary facts: the lookup -/

theorem commands_names_cstr : ∀ c ∈ commands, cstr c.name = c.name := by decide

theorem lookupFrom_unknown (fuel : Nat) (k : Kernel) (argc : Nat) (argv : List Str) (w : World) :
    ∀ (cs : List Command), (∀ c ∈ cs, strcmp (argv.getD 0 []) c.name ≠ 0) →
      lookupFrom fuel k argc argv w cs
        = Outcome.ret 0 (cprintf (unknownCommandText (argv.getD 0 [])) w) := by
  intro cs
  induction cs with
  | nil => intro _; rfl
  | cons c cs ih =>
    intro h
    rw [lookupFrom, if_neg (h c (List.mem_cons_self _ _))]
    exact ih (fun d hd => h d (List.mem_cons_of_mem _ hd))

theorem getD_zero_of_head {toks : List Str} {t : Str} (h : toks.head? = some t) :
    toks.getD 0 [] = t ∧ toks.length ≠ 0 := by
  cases toks with
  | nil => simp at h
  | cons a as => simp at h; simp [h]

/-- The table is searched in order and the names differ from one another, so a
first argument equal to the name of an entry calls that entry. -/
theorem lookup_found (fuel : Nat) (k : Kernel) (toks : List Str) (w : World) (c : Command)
    (hc : c ∈ commands) (hfirst : toks.head? = some c.name) :
    lookup fuel k toks.length toks w = invoke fuel k c toks.length toks w := by
  obtain ⟨h0, hlen⟩ := getD_zero_of_head hfirst
  have s11 : strcmp "help".toList "help".toList = 0 := by decide
  have s21 : ¬ strcmp "kerninfo".toList "help".toList = 0 := by decide
  have s22 : strcmp "kerninfo".toList "kerninfo".toList = 0 := by decide
  have s31 : ¬ strcmp "backtrace".toList "help".toList = 0 := by decide
  have s32 : ¬ strcmp "backtrace".toList "kerninfo".toList = 0 := by decide
  have s33 : strcmp "backtrace".toList "backtrace".toList = 0 := by decide
  simp only [commands, List.mem_cons, List.mem_singleton, List.not_mem_nil, or_false] at hc
  rw [lookup, if_neg hlen]
  rcases hc with rfl | rfl | rfl
  · simp only [commands, lookupFrom, h0, s11, if_true]
  · simp only [commands, lookupFrom, h0, s21, s22, if_true, if_false]
  · simp only [commands, lookupFrom, h0, s31, s32, s33, if_true, if_false]

/-! ## Auxiliary facts: the handlers -/

theorem load_eq_some {k : Kernel} {a : Nat} {w : World} {r : Nat × World}
    (h : load k a w = some r) : r.2 = { w with reads := w.reads ++ [a % 2 ^ 32] } := by
  unfold load at h
  split at h
  · exact Option.noConfusion h
  · injection h with h; rw [← h]

theorem load_calls {k : Kernel} {a : Nat} {w : World} {r : Nat × World}
    (h : load k a w = some r) : r.2.calls = w.calls := by
  rw [load_eq_some h]

theorem readFrame_calls {k : Kernel} {ebp : Nat} {w : World} {r : Nat × List Nat × World}
    (h : readFrame k ebp w = some r) : r.2.2.calls = w.calls := by
  simp only [readFrame, Option.bind_eq_bind, Option.bind_eq_some, Option.pure_def,
    Option.some.injEq] at h
  obtain ⟨r1, h1, r2, h2, r3, h3, r4, h4, r5, h5, r6, h6, rfl⟩ := h
  simp only []
  rw [load_calls h6, load_calls h5, load_calls h4, load_calls h3, load_calls h2, load_calls h1]

theorem backtraceBody_calls {k : Kernel} {ebp eip : Nat} {arg : List Nat} {w : World}
    {r : Nat × Nat × List Nat × World}
    (h : backtraceBody k ebp eip arg w = some r) : r.2.2.2.calls = w.calls := by
  simp only [backtraceBody, Option.bind_eq_bind, Option.bind_eq_some, Option.pure_def,
    Option.some.injEq] at h
  obtain ⟨r1, h1, r2, h2, r3, h3, w4, h4, r5, h5, rfl⟩ := h
  simp only []
  rw [load_calls h5]
  have e4 : w4.calls = r3.2.calls := by
    split at h4
    · simp only [Option.bind_eq_bind, Option.bind_eq_some, Option.pure_def,
        Option.some.injEq] at h4
      obtain ⟨r6, h6, rfl⟩ := h4
      simp only [cprintf]
      exact load_calls h6
    · simp only [Option.pure_def, Option.some.injEq] at h4
      rw [h4]
  rw [e4, load_calls h3, readFrame_calls h2, load_calls h1]
  rfl

theorem backtraceLoop_ret (k : Kernel) : ∀ (fuel ebp eip : Nat) (arg : List Nat) (w : World)
    (v : Int) (w1 : World), backtraceLoop k fuel ebp eip arg w = Outcome.ret v w1 →
    v = 0 ∧ w1.calls = w.calls := by
  intro fuel
  induction fuel with
  | zero => intro ebp eip arg w v w1 h; simp [backtraceLoop] at h
  | succ fuel ih =>
    intro ebp eip arg w v w1 h
    rw [backtraceLoop] at h
    by_cases he : ebp ≠ 0
    · rw [if_pos he] at h
      cases hb : backtraceBody k ebp eip arg w with
      | none => rw [hb] at h; exact Outcome.noConfusion h
      | some r =>
        obtain ⟨e1, e2, a1, w2⟩ := r
        rw [hb] at h
        obtain ⟨hv, hc⟩ := ih e1 e2 a1 w2 v w1 h
        exact ⟨hv, by rw [hc]; exact backtraceBody_calls hb⟩
    · rw [if_neg he] at h
      injection h with hv hw
      exact ⟨hv.symm, by rw [hw]⟩

theorem handlerBody_ret (fuel : Nat) (k : Kernel) (f : Handler) (argc : Nat) (argv : List Str)
    (w : World) (v : Int) (w1 : World)
    (h : handlerBody fuel k f argc argv w = Outcome.ret v w1) : v = 0 ∧ w1.calls = w.calls := by
  cases f with
  | mon_help =>
    simp only [handlerBody, mon_help] at h
    split at h
    · injection h with hv hw
      refine ⟨hv.symm, ?_⟩
      rw [← hw]; rfl
    · split at h <;>
      · injection h with hv hw
        refine ⟨hv.symm, ?_⟩
        rw [← hw]; rfl
  | mon_kerninfo =>
    simp only [handlerBody, mon_kerninfo] at h
    injection h with hv hw
    refine ⟨hv.symm, ?_⟩
    rw [← hw]; rfl
  | mon_backtrace =>
    simp only [handlerBody, mon_backtrace] at h
    cases hr : readFrame k (k.ebp % 2 ^ 32) w with
    | none => rw [hr] at h; exact Outcome.noConfusion h
    | some r =>
      obtain ⟨e, a, w2⟩ := r
      rw [hr] at h
      obtain ⟨hv, hc⟩ := backtraceLoop_ret k _ _ _ _ _ _ _ h
      exact ⟨hv, by rw [hc]; exact readFrame_calls hr⟩

theorem lookupFrom_ret (fuel : Nat) (k : Kernel) (argc : Nat) (argv : List Str) (w : World)
    (v : Int) (w1 : World) : ∀ (cs : List Command),
    lookupFrom fuel k argc argv w cs = Outcome.ret v w1 → v = 0 := by
  intro cs
  induction cs with
  | nil => intro h; injection h with hv _; exact hv.symm
  | cons c cs ih =>
    intro h
    rw [lookupFrom] at h
    split at h
    · exact (handlerBody_ret _ _ _ _ _ _ _ _ h).1
    · exact ih h

theorem runcmd_ret (fuel : Nat) (k : Kernel) (buf : Str) (w : World) (v : Int) (w1 : World)
    (h : runcmd fuel k buf w = Outcome.ret v w1) : v = 0 := by
  unfold runcmd at h
  split at h
  · exact Outcome.noConfusion h
  · exact Outcome.noConfusion h
  · injection h with hv _; exact hv.symm
  · unfold lookup at h
    split at h
    · injection h with hv _; exact hv.symm
    · exact lookupFrom_ret _ _ _ _ _ _ _ _ h

theorem monitorLoop_never_left (fuel : Nat) (k : Kernel) : ∀ (lines : List (Option Str))
    (w w1 : World), monitorLoop fuel k lines w ≠ MonitorEnd.left w1 := by
  intro lines
  induction lines with
  | nil => intro w w1 h; exact MonitorEnd.noConfusion h
  | cons l more ih =>
    intro w w1 h
    cases l with
    | none => exact ih w w1 h
    | some buf =>
      rw [monitorLoop] at h
      cases hr : runcmd fuel k buf w with
      | ret v w2 =>
        rw [hr] at h
        have hv := runcmd_ret _ _ _ _ _ _ hr
        subst hv
        simp only [lt_self_iff_false, if_false] at h
        exact ih w2 w1 h
      | fault => rw [hr] at h; exact MonitorEnd.noConfusion h
      | running w2 => rw [hr] at h; exact MonitorEnd.noConfusion h

/-! ## Auxiliary facts: the frame walker -/

theorem load_ok {k : Kernel} {a : Nat} (h : readable k a = true) (w : World) :
    load k a w = some (word k a, { w with reads := w.reads ++ [a % 2 ^ 32] }) := by
  unfold readable at h
  unfold load word
  cases hm : k.mem (a % 2 ^ 32) with
  | none => rw [hm] at h; exact Bool.noConfusion h
  | some v => rfl

theorem readFrame_ok {k : Kernel} {ebp : Nat}
    (h : ∀ i, i < 6 → readable k (ebp + 4 * (i + 1)) = true) (w : World) :
    readFrame k ebp w = some (word k (ebp + 4 * 1), frameArgs k ebp,
      { w with reads := w.reads ++ frameWordAddrs ebp }) := by
  have h1 := h 0 (by decide)
  have h2 := h 1 (by decide)
  have h3 := h 2 (by decide)
  have h4 := h 3 (by decide)
  have h5 := h 4 (by decide)
  have h6 := h 5 (by decide)
  simp only [readFrame, Option.bind_eq_bind, Option.pure_def, load_ok h1, load_ok h2,
    load_ok h3, load_ok h4, load_ok h5, load_ok h6, Option.some_bind, frameArgs,
    frameWordAddrs, List.append_assoc, List.singleton_append, List.nil_append]

theorem backtraceBody_ok {k : Kernel} {fp : Nat} (hfp : readable k fp = true)
    (hra : readable k (fp + 4 * 1) = true)
    (hnext : ∀ i, i < 6 → readable k (word k fp + 4 * (i + 1)) = true)
    (eip : Nat) (arg : List Nat) (w : World) :
    backtraceBody k fp eip arg w
      = some (word k fp, word k (word k fp + 4 * 1), frameArgs k (word k fp),
          { out := w.out ++ summaryLine fp eip arg :: symbolOut k fp,
            reads := w.reads ++ frameReads k fp,
            calls := w.calls }) := by
  simp only [backtraceBody, Option.bind_eq_bind, Option.pure_def, load_ok hfp, load_ok hra,
    readFrame_ok hnext, Option.some_bind, cprintf, symbolOut, frameReads]
  by_cases hrc : (k.debuginfo_eip (word k (fp + 4 * 1))).1 = 0
  · simp only [if_pos hrc, load_ok hra, Option.some_bind, List.append_assoc,
      List.singleton_append, List.cons_append, List.nil_append]
  · simp only [if_neg hrc, load_ok hfp, Option.some_bind, List.append_assoc,
      List.singleton_append, List.cons_append, List.nil_append, List.append_nil]

theorem isChain_start_mem (k : Kernel) {start : Nat} {chain : List Nat}
    (h : isChain k start chain = true) : start ∈ chain ++ [0] := by
  cases chain with
  | nil => simp [isChain] at h; simp [h]
  | cons fp fps =>
    simp only [isChain, Bool.and_eq_true, beq_iff_eq] at h
    simp [h.1.1]

theorem backtraceLoop_chain (k : Kernel) : ∀ (chain : List Nat) (fuel ebp : Nat) (w : World),
    isChain k ebp chain = true →
    (∀ fp ∈ chain, readable k fp = true) →
    (∀ fp ∈ chain ++ [0], ∀ i, i < 6 → readable k (fp + 4 * (i + 1)) = true) →
    chain.length < fuel →
    backtraceLoop k fuel ebp (word k (ebp + 4 * 1)) (frameArgs k ebp) w
      = Outcome.ret 0 { out := w.out ++ (chain.map (frameOut k)).flatten,
                        reads := w.reads ++ (chain.map (frameReads k)).flatten,
                        calls := w.calls } := by
  intro chain
  induction chain with
  | nil =>
    intro fuel ebp w hc _ _ hfuel
    have he : ebp = 0 := by simpa [isChain] using hc
    obtain ⟨f, rfl⟩ : ∃ f, fuel = f + 1 := ⟨fuel - 1, by omega⟩
    subst he
    simp [backtraceLoop]
  | cons fp fps ih =>
    intro fuel ebp w hc h1 h2 hfuel
    simp only [isChain, Bool.and_eq_true, beq_iff_eq, bne_iff_ne, ne_eq] at hc
    obtain ⟨⟨he, hne⟩, hrest⟩ := hc
    subst he
    obtain ⟨f, rfl⟩ : ∃ f, fuel = f + 1 := ⟨fuel - 1, by omega⟩
    have hnext : ∀ i, i < 6 → readable k (word k ebp + 4 * (i + 1)) = true := by
      intro i hi
      have hm := isChain_start_mem k hrest
      exact h2 _ (by simp only [List.cons_append]; exact List.mem_cons_of_mem _ hm) i hi
    have hbody := backtraceBody_ok (h1 ebp (List.mem_cons_self _ _))
      (h2 ebp (by simp) 0 (by decide)) hnext (word k (ebp + 4 * 1)) (frameArgs k ebp) w
    rw [backtraceLoop, if_pos hne, hbody]
    simp only []
    rw [ih f (word k ebp) _ hrest (fun x hx => h1 x (List.mem_cons_of_mem _ hx))
      (fun x hx => h2 x (by simp only [List.cons_append]; exact List.mem_cons_of_mem _ hx))
      (by simp at hfuel; omega)]
    simp [frameOut, summaryOf, List.append_assoc]

theorem isSummaryLine_summaryLine (ebp eip : Nat) (arg : List Nat) :
    isSummaryLine (summaryLine ebp eip arg) = true := rfl

theorem isSummaryLine_symbolLine (info : Eipdebuginfo) (off : Nat) :
    isSummaryLine (symbolLine info off) = false := rfl

theorem filter_frameOut (k : Kernel) (fp : Nat) :
    (frameOut k fp).filter isSummaryLine = [summaryOf k fp] := by
  simp only [frameOut, summaryOf, symbolOut]
  split <;> simp [List.filter, isSummaryLine_summaryLine, isSummaryLine_symbolLine]

theorem filter_frames (k : Kernel) (chain : List Nat) :
    ((chain.map (frameOut k)).flatten).filter isSummaryLine = chain.map (summaryOf k) := by
  induction chain with
  | nil => rfl
  | cons fp fps ih =>
    simp only [List.map_cons, List.flatten_cons, List.filter_append, ih, filter_frameOut]
    rfl

/-- The whole of `mon_backtrace` on a well-formed chain whose words are
readable: the value returned and the world it ends in. -/
theorem mon_backtrace_chain (fuel : Nat) (k : Kernel) (argc : Nat) (argv : List Str)
    (w : World) (chain : List Nat) (hchain : isChain k (k.ebp % 2 ^ 32) chain = true)
    (hread : walkReadable k chain = true) (hfuel : chain.length < fuel) :
    mon_backtrace fuel k argc argv w
      = Outcome.ret 0
          { out := w.out ++ "Stack backtrace:\n".toList :: (chain.map (frameOut k)).flatten,
            reads := w.reads ++ frameWordAddrs (k.ebp % 2 ^ 32)
              ++ (chain.map (frameReads k)).flatten,
            calls := w.calls } := by
  simp only [walkReadable, Bool.and_eq_true, List.all_eq_true, List.mem_range] at hread
  obtain ⟨h1, h2⟩ := hread
  have h0 := h2 _ (isChain_start_mem k hchain)
  simp only [mon_backtrace, readFrame_ok h0]
  rw [backtraceLoop_chain k chain fuel _ _ hchain h1 h2 hfuel]
  simp [cprintf, List.append_assoc]

/-! ## The tokenizer and the dispatcher -/

/-- C1: for a line without terminator and with at most 15 tokens, the parsing
part of `runcmd` ends with `argc` the number of tokens and the strings behind
`argv[0..argc-1]` exactly the maximal runs of non-whitespace characters of the
line, left to right; these are the arguments the lookup works on.  The
separators found by `strchr (WHITESPACE, c)` are exactly tab, carriage return,
newline and space, and every token is non-empty and free of these. -/
theorem C1_argv_is_token_list (line : Str) (hnul : ∀ c ∈ line, c ≠ NUL)
    (hcount : (specTokens line).length ≤ 15) :
    (∃ buf argv, parseArgs line = some (Parsed.args buf (specTokens line).length argv)
        ∧ argStrings buf (specTokens line).length argv = specTokens line)
    ∧ (∀ fuel k w, runcmd fuel k line w
        = lookup fuel k (specTokens line).length (specTokens line) w)
    ∧ (∀ t ∈ specTokens line, t ≠ [] ∧ ∀ c ∈ t, isWhitespace c = false)
    ∧ (∀ c, strchr WHITESPACE c = true
        ↔ c = Char.ofNat 9 ∨ c = Char.ofNat 13 ∨ c = Char.ofNat 10 ∨ c = Char.ofNat 32) := by
  have hc : cstr line = line := cstr_eq_self hnul
  have hlt : (specTokens (cstr line)).length < MAXARGS := by
    rw [hc]; exact Nat.lt_succ_of_le hcount
  refine ⟨?_, ?_, ?_, ?_⟩
  · obtain ⟨argv, e, hs, _⟩ := parseArgs_accept line hlt
    rw [hc] at e hs
    exact ⟨_, argv, e, hs⟩
  · intro fuel k w
    have := runcmd_accept fuel k line w hlt
    rwa [hc] at this
  · intro t ht
    exact ⟨(specTokens_mem ht).1, fun c hc => ((specTokens_mem ht).2 c hc).2⟩
  · intro c
    rw [strchr_WHITESPACE]
    simp [isWhitespace, or_assoc]

/-- C1 at the line `"  a   b\tc\n"`: the arguments are `a`, `b`, `c`. -/
theorem C1_argv_is_token_list_witness :
    specTokens "  a   b\tc\n".toList = ["a".toList, "b".toList, "c".toList]
    ∧ ∃ buf argv, parseArgs "  a   b\tc\n".toList
          = some (Parsed.args buf (specTokens "  a   b\tc\n".toList).length argv)
        ∧ argStrings buf (specTokens "  a   b\tc\n".toList).length argv
          = specTokens "  a   b\tc\n".toList :=
  ⟨by decide, (C1_argv_is_token_list "  a   b\tc\n".toList (by decide) (by decide)).1⟩

/-- C2: for a line made only of whitespace characters (the empty line
included) `runcmd` finds no token (`argc = 0`) and returns 0 with the world
unchanged: nothing is printed and no handler is called. -/
theorem C2_blank_line (fuel : Nat) (k : Kernel) (line : Str) (w : World)
    (h : ∀ c ∈ line, isWhitespace c = true) :
    specTokens line = []
    ∧ (∃ buf argv, parseArgs line = some (Parsed.args buf 0 argv))
    ∧ runcmd fuel k line w = Outcome.ret 0 w := by
  have hc : cstr line = line := cstr_eq_self (fun c hc => ne_NUL_of_isWhitespace (h c hc))
  have hnil : specTokens (cstr line) = [] := by rw [hc]; exact specTokens_all_ws h
  have hlt : (specTokens (cstr line)).length < MAXARGS := by rw [hnil]; decide
  refine ⟨specTokens_all_ws h, ?_, ?_⟩
  · obtain ⟨argv, e, _, _⟩ := parseArgs_accept line hlt
    rw [hnil] at e
    exact ⟨_, argv, e⟩
  · rw [runcmd_accept fuel k line w hlt, hnil]
    rfl

/-- C2 at the line `" \t\r\n "` and at the empty line. -/
theorem C2_blank_line_witness :
    runcmd 0 Kernel.blank " \t\r\n ".toList World.empty = Outcome.ret 0 World.empty
    ∧ runcmd 0 Kernel.blank [] World.empty = Outcome.ret 0 World.empty :=
  ⟨(C2_blank_line 0 Kernel.blank " \t\r\n ".toList World.empty (by decide)).2.2,
   (C2_blank_line 0 Kernel.blank [] World.empty (by decide)).2.2⟩

/-- C3, as the code has it: the report of too many arguments is made exactly
when the line has more than 15 tokens (`argc == MAXARGS - 1` with a token still
ahead).  A line with at most 15 tokens goes on to the lookup of its first
token, and with exactly 15 tokens of which the first is `help` it calls
`mon_help` with `argc = 15`. -/
theorem C3_at_most_fifteen_tokens_accepted (fuel : Nat) (k : Kernel) (line : Str) (w : World) :
    ((∃ b, parseArgs line = some (Parsed.tooMany b)) ↔ 15 < (specTokens (cstr line)).length)
    ∧ ((specTokens (cstr line)).length ≤ 15 →
        runcmd fuel k line w
          = lookup fuel k (specTokens (cstr line)).length (specTokens (cstr line)) w)
    ∧ ((specTokens (cstr line)).length = 15 →
        (specTokens (cstr line)).head? = some "help".toList →
        runcmd fuel k line w
          = mon_help 15 (specTokens (cstr line))
              { w with calls := w.calls ++ [⟨Handler.mon_help, 15, specTokens (cstr line)⟩] }) := by
  refine ⟨?_, ?_, ?_⟩
  · constructor
    · rintro ⟨b, hb⟩
      by_contra hle
      obtain ⟨argv, e, _, _⟩ := parseArgs_accept line (Nat.lt_succ_of_le (Nat.le_of_not_lt hle))
      rw [e] at hb
      injection hb with hb
      exact Parsed.noConfusion hb
    · intro h
      exact parseArgs_reject line h
  · intro h
    exact runcmd_accept fuel k line w (Nat.lt_succ_of_le h)
  · intro h15 hhead
    rw [runcmd_accept fuel k line w (by rw [h15]; decide)]
    have := lookup_found fuel k (specTokens (cstr line)) w (commandAt 0) (by decide) hhead
    rw [this, h15]
    rfl

/-- C3 at a line of 15 tokens starting with `help`: `mon_help` is called with
`argc = 15`. -/
theorem C3_at_most_fifteen_tokens_accepted_witness :
    (specTokens (cstr "help 2 3 4 5 6 7 8 9 10 11 12 13 14 15".toList)).length = 15
    ∧ runcmd 0 Kernel.blank "help 2 3 4 5 6 7 8 9 10 11 12 13 14 15".toList World.empty
      = mon_help 15 (specTokens (cstr "help 2 3 4 5 6 7 8 9 10 11 12 13 14 15".toList))
          { World.empty with calls := World.empty.calls ++ [⟨Handler.mon_help, 15,
              specTokens (cstr "help 2 3 4 5 6 7 8 9 10 11 12 13 14 15".toList)⟩] } :=
  ⟨by decide,
   (C3_at_most_fifteen_tokens_accepted 0 Kernel.blank
      "help 2 3 4 5 6 7 8 9 10 11 12 13 14 15".toList World.empty).2.2 (by decide) (by decide)⟩

/-- C3 as stated fails: a line of exactly 16 tokens whose first token is
`help` gets the report of too many arguments, and `mon_help` is not called. -/
theorem C3_sixteen_tokens_rejected :
    (specTokens "help 2 3 4 5 6 7 8 9 10 11 12 13 14 15 16".toList).length = 16
    ∧ (specTokens "help 2 3 4 5 6 7 8 9 10 11 12 13 14 15 16".toList).head? = some "help".toList
    ∧ runcmd 0 Kernel.blank "help 2 3 4 5 6 7 8 9 10 11 12 13 14 15 16".toList World.empty
      = Outcome.ret 0 ⟨["Too many arguments (max 16)\n".toList], [], []⟩ := by
  decide

/-- C4: for a line with 17 tokens or more `runcmd` prints exactly
`Too many arguments (max 16)`, calls no handler and returns 0. -/
theorem C4_seventeen_or_more_tokens (fuel : Nat) (k : Kernel) (line : Str) (w : World)
    (h : 17 ≤ (specTokens (cstr line)).length) :
    runcmd fuel k line w
      = Outcome.ret 0 { out := w.out ++ ["Too many arguments (max 16)\n".toList],
                        reads := w.reads, calls := w.calls } := by
  rw [runcmd_reject fuel k line w (Nat.le_trans (by decide) h), tooManyText_eq]
  rfl

/-- C4 at a line of 17 tokens whose first token is the command name `help`. -/
theorem C4_seventeen_or_more_tokens_witness :
    17 ≤ (specTokens (cstr "help 2 3 4 5 6 7 8 9 10 11 12 13 14 15 16 17".toList)).length
    ∧ runcmd 0 Kernel.blank "help 2 3 4 5 6 7 8 9 10 11 12 13 14 15 16 17".toList World.empty
      = Outcome.ret 0 { out := World.empty.out ++ ["Too many arguments (max 16)\n".toList],
                        reads := World.empty.reads, calls := World.empty.calls } :=
  ⟨by decide,
   C4_seventeen_or_more_tokens 0 Kernel.blank
     "help 2 3 4 5 6 7 8 9 10 11 12 13 14 15 16 17".toList World.empty (by decide)⟩

/-- C5: for an accepted line (fewer than `MAXARGS` tokens) whose first token
is the name of a table entry, `runcmd` is the call of that entry's function
with `argc` the number of tokens and `argv` all the tokens, and its result is
the result of that call; when it returns, exactly this one call has been added
to the calls made.  The three names of the table differ from one another. -/
theorem C5_dispatch_by_name (fuel : Nat) (k : Kernel) (line : Str) (w : World) (c : Command)
    (hc : c ∈ commands) (hacc : (specTokens (cstr line)).length < MAXARGS)
    (hfirst : (specTokens (cstr line)).head? = some c.name) :
    (commands.map Command.name).Nodup
    ∧ commands.map Command.name = ["help".toList, "kerninfo".toList, "backtrace".toList]
    ∧ runcmd fuel k line w
      = handlerBody fuel k c.func (specTokens (cstr line)).length (specTokens (cstr line))
          { w with calls := w.calls
              ++ [⟨c.func, (specTokens (cstr line)).length, specTokens (cstr line)⟩] }
    ∧ (∀ v w1, runcmd fuel k line w = Outcome.ret v w1 →
        w1.calls = w.calls
          ++ [⟨c.func, (specTokens (cstr line)).length, specTokens (cstr line)⟩]) := by
  have e : runcmd fuel k line w
      = handlerBody fuel k c.func (specTokens (cstr line)).length (specTokens (cstr line))
          { w with calls := w.calls
              ++ [⟨c.func, (specTokens (cstr line)).length, specTokens (cstr line)⟩] } := by
    rw [runcmd_accept fuel k line w hacc, lookup_found fuel k _ w c hc hfirst]
    rfl
  refine ⟨by decide, by decide, e, ?_⟩
  intro v w1 h
  rw [e] at h
  exact (handlerBody_ret _ _ _ _ _ _ _ _ h).2

/-- C5 at the line `backtrace`: the call made is that of `mon_backtrace`, with
`argc = 1` and `argv = ["backtrace"]`. -/
theorem C5_dispatch_by_name_witness :
    runcmd 4 Kernel.blank "backtrace".toList World.empty
      = mon_backtrace 4 Kernel.blank 1 ["backtrace".toList]
          ⟨[], [], [⟨Handler.mon_backtrace, 1, ["backtrace".toList]⟩]⟩ :=
  (C5_dispatch_by_name 4 Kernel.blank "backtrace".toList World.empty
    ⟨"backtrace".toList, "Display backtrace info".toList, "backtrace".toList,
      Handler.mon_backtrace⟩ (by decide) (by decide) (by decide)).2.2.1

/-- C6: for an accepted line with at least one token whose first token is not
the name of any table entry, `runcmd` prints exactly `Unknown command '<first
token>'`, calls no handler and returns 0. -/
theorem C6_unknown_command (fuel : Nat) (k : Kernel) (line : Str) (w : World) (tok : Str)
    (hacc : (specTokens (cstr line)).length < MAXARGS)
    (hfirst : (specTokens (cstr line)).head? = some tok)
    (hnone : ∀ c ∈ commands, tok ≠ c.name) :
    runcmd fuel k line w
      = Outcome.ret 0 { out := w.out ++ ["Unknown command '".toList ++ tok ++ "'\n".toList],
                        reads := w.reads, calls := w.calls } := by
  obtain ⟨h0, hlen⟩ := getD_zero_of_head hfirst
  have hmem : tok ∈ specTokens (cstr line) := List.mem_of_mem_head? hfirst
  have htok : cstr tok = tok := cstr_token hmem
  have hstr : ∀ c ∈ commands, strcmp ((specTokens (cstr line)).getD 0 []) c.name ≠ 0 := by
    intro c hc h
    rw [h0, strcmp_eq_zero_iff, htok, commands_names_cstr c hc] at h
    exact hnone c hc h
  rw [runcmd_accept fuel k line w hacc, lookup, if_neg hlen,
    lookupFrom_unknown fuel k _ _ w commands hstr, h0]
  simp only [unknownCommandText, fmt_s, htok, cprintf]

/-- C6 at the lines `nosuchcmd`, `HELP`, `help2` and `hel`. -/
theorem C6_unknown_command_witness :
    runcmd 0 Kernel.blank "nosuchcmd".toList World.empty
      = Outcome.ret 0 ⟨["Unknown command 'nosuchcmd'\n".toList], [], []⟩
    ∧ runcmd 0 Kernel.blank "HELP".toList World.empty
      = Outcome.ret 0 ⟨["Unknown command 'HELP'\n".toList], [], []⟩
    ∧ runcmd 0 Kernel.blank "help2 help".toList World.empty
      = Outcome.ret 0 ⟨["Unknown command 'help2'\n".toList], [], []⟩
    ∧ runcmd 0 Kernel.blank "hel".toList World.empty
      = Outcome.ret 0 ⟨["Unknown command 'hel'\n".toList], [], []⟩ :=
  ⟨C6_unknown_command 0 Kernel.blank "nosuchcmd".toList World.empty "nosuchcmd".toList
      (by decide) (by decide) (by decide),
   C6_unknown_command 0 Kernel.blank "HELP".toList World.empty "HELP".toList
      (by decide) (by decide) (by decide),
   C6_unknown_command 0 Kernel.blank "help2 help".toList World.empty "help2".toList
      (by decide) (by decide) (by decide),
   C6_unknown_command 0 Kernel.blank "hel".toList World.empty "hel".toList
      (by decide) (by decide) (by decide)⟩

/-- C7: whatever the line, the memory and the resolver, a value returned by
`runcmd` is 0, so `monitor` never takes its `break`, whatever `readline`
delivers (null results included).  A line whose first token is not
`backtrace` always makes `runcmd` return. -/
theorem C7_never_terminates (fuel : Nat) (k : Kernel) :
    (∀ line w v w1, runcmd fuel k line w = Outcome.ret v w1 → v = 0)
    ∧ (∀ lines w w1, monitor fuel k lines w ≠ MonitorEnd.left w1)
    ∧ (∀ line w, (specTokens (cstr line)).head? ≠ some "backtrace".toList →
        ∃ w1, runcmd fuel k line w = Outcome.ret 0 w1) := by
  refine ⟨fun line w v w1 h => runcmd_ret fuel k line w v w1 h, ?_, ?_⟩
  · intro lines w w1
    exact monitorLoop_never_left fuel k lines _ w1
  · intro line w hb
    by_cases hacc : (specTokens (cstr line)).length < MAXARGS
    · rw [runcmd_accept fuel k line w hacc]
      cases ht : specTokens (cstr line) with
      | nil => exact ⟨w, rfl⟩
      | cons t ts =>
        rw [ht] at hb
        have hmem : t ∈ specTokens (cstr line) := by rw [ht]; exact List.mem_cons_self _ _
        have htok : cstr t = t := cstr_token hmem
        have hne : ¬ strcmp t "backtrace".toList = 0 := by
          intro h
          rw [strcmp_eq_zero_iff, htok] at h
          exact hb (by rw [h]; rfl)
        simp only [lookup, List.length_cons, Nat.succ_ne_zero, if_false, commands, lookupFrom,
          List.getD_cons_zero, hne, invoke, handlerBody]
        split
        · simp only [mon_help]
          split
          · exact ⟨_, rfl⟩
          · split <;> exact ⟨_, rfl⟩
        · split
          · exact ⟨_, rfl⟩
          · exact ⟨_, rfl⟩
    · rw [runcmd_reject fuel k line w (Nat.le_of_not_lt hacc)]
      exact ⟨_, rfl⟩

/-- C7 on a run of `monitor`: five results of `readline`, among them a null
result, an unknown command and a backtrace; the loop is still waiting for input
at the end. -/
theorem C7_never_terminates_witness :
    (∃ w1, monitor 4 { Kernel.blank with mem := fun _ => some 0 }
      [some "help".toList, none, some "nosuchcmd".toList, some "backtrace".toList,
        some "kerninfo".toList] World.empty = MonitorEnd.waiting w1)
    ∧ ∀ w1, monitor 4 { Kernel.blank with mem := fun _ => some 0 }
      [some "help".toList, none, some "nosuchcmd".toList, some "backtrace".toList,
        some "kerninfo".toList] World.empty ≠ MonitorEnd.left w1 :=
  ⟨⟨_, rfl⟩, fun w1 => (C7_never_terminates 4 _).2.1 _ _ w1⟩

/-! ## `mon_help` -/

theorem mon_help_one (argv : List Str) (w : World) :
    mon_help 1 argv w
      = Outcome.ret 0
          { out := w.out ++
              ["help - Display this list of commands or one of the command - usage:\nhelp\nhelp <command>\n".toList,
               "kerninfo - Display information about the kernel - usage:\nkerninfo\n".toList,
               "backtrace - Display backtrace info - usage:\nbacktrace\n".toList],
            reads := w.reads, calls := w.calls } := by
  have e1 : helpListEntry (commandAt 0)
    = "help - Display this list of commands or one of the command - usage:\nhelp\nhelp <command>\n".toList := by
    decide
  have e2 : helpListEntry (commandAt 1)
    = "kerninfo - Display information about the kernel - usage:\nkerninfo\n".toList := by decide
  have e3 : helpListEntry (commandAt 2)
    = "backtrace - Display backtrace info - usage:\nbacktrace\n".toList := by decide
  rw [← e1, ← e2, ← e3]
  simp [mon_help, commands, commandAt, cprintf, List.foldl]

/-- C8: with `argc = 1` (as on the line `help`) `mon_help` prints exactly
three entries, one per table entry and in table order `help`, `kerninfo`,
`backtrace`, each made of the name, then the description, then the usage text
of its command; nothing else is printed and the result is 0. -/
theorem C8_help_lists_table (fuel : Nat) (k : Kernel) (argv : List Str) (w : World) :
    mon_help 1 argv w
      = Outcome.ret 0
          { out := w.out ++
              ["help - Display this list of commands or one of the command - usage:\nhelp\nhelp <command>\n".toList,
               "kerninfo - Display information about the kernel - usage:\nkerninfo\n".toList,
               "backtrace - Display backtrace info - usage:\nbacktrace\n".toList],
            reads := w.reads, calls := w.calls }
    ∧ runcmd fuel k "help\n".toList w
      = Outcome.ret 0
          { out := w.out ++
              ["help - Display this list of commands or one of the command - usage:\nhelp\nhelp <command>\n".toList,
               "kerninfo - Display information about the kernel - usage:\nkerninfo\n".toList,
               "backtrace - Display backtrace info - usage:\nbacktrace\n".toList],
            reads := w.reads,
            calls := w.calls ++ [⟨Handler.mon_help, 1, ["help".toList]⟩] }
    ∧ ["help - Display this list of commands or one of the command - usage:\nhelp\nhelp <command>\n".toList,
       "kerninfo - Display information about the kernel - usage:\nkerninfo\n".toList,
       "backtrace - Display backtrace info - usage:\nbacktrace\n".toList]
      = commands.map (fun c =>
          c.name ++ " - ".toList ++ c.desc ++ " - usage:\n".toList ++ c.usage ++ "\n".toList)
    ∧ commands.map Command.name = ["help".toList, "kerninfo".toList, "backtrace".toList] := by
  refine ⟨mon_help_one argv w, ?_, by decide, by decide⟩
  have hacc : (specTokens (cstr "help\n".toList)).length < MAXARGS := by decide
  have htok : specTokens (cstr "help\n".toList) = ["help".toList] := by decide
  have hfound := lookup_found fuel k (specTokens (cstr "help\n".toList)) w (commandAt 0)
    (by decide) (by decide)
  rw [runcmd_accept fuel k _ w hacc, hfound, htok]
  exact mon_help_one ["help".toList]
    { w with calls := w.calls ++ [⟨Handler.mon_help, 1, ["help".toList]⟩] }

/-- C8 on the line `help`, from the empty world. -/
theorem C8_help_lists_table_witness :
    runcmd 0 Kernel.blank "help\n".toList World.empty
      = Outcome.ret 0
          ⟨["help - Display this list of commands or one of the command - usage:\nhelp\nhelp <command>\n".toList,
            "kerninfo - Display information about the kernel - usage:\nkerninfo\n".toList,
            "backtrace - Display backtrace info - usage:\nbacktrace\n".toList],
           [], [⟨Handler.mon_help, 1, ["help".toList]⟩]⟩ :=
  (C8_help_lists_table 0 Kernel.blank [] World.empty).2.1

/-- C9, as the code has it: with exactly one extra argument (`argc = 2`),
whatever it is, `mon_help` prints one chunk made of the name, the description
and the usage of the second table entry, `kerninfo`, and nothing else; with
two extra arguments or more (`argc >= 3`) it prints the usage text of `help`
and nothing else.  The result is 0 in both cases. -/
theorem C9_help_with_arguments (argc : Nat) (argv : List Str) (w : World) :
    (argc = 2 →
      mon_help argc argv w
        = Outcome.ret 0
            { out := w.out ++ ["kerninfo - Display information about the kernel - kerninfo\n".toList],
              reads := w.reads, calls := w.calls })
    ∧ (3 ≤ argc →
      mon_help argc argv w
        = Outcome.ret 0
            { out := w.out ++ ["help usage:\nhelp\nhelp <command>\n".toList],
              reads := w.reads, calls := w.calls })
    ∧ "kerninfo - Display information about the kernel - kerninfo\n".toList
      = (commandAt 1).name ++ " - ".toList ++ (commandAt 1).desc ++ " - ".toList
          ++ (commandAt 1).usage ++ "\n".toList := by
  have e1 : helpOneEntry (commandAt 1)
      = "kerninfo - Display information about the kernel - kerninfo\n".toList := by decide
  have e2 : helpUsage (commandAt 0) = "help usage:\nhelp\nhelp <command>\n".toList := by decide
  refine ⟨?_, ?_, by decide⟩
  · intro h
    subst h
    rw [← e1]
    rfl
  · intro h
    have h1 : ¬ argc = 1 := by omega
    have h2 : ¬ argc = 2 := by omega
    rw [← e2]
    simp only [mon_help, if_neg h1, if_neg h2]
    rfl

/-- C9 on the lines `help backtrace` (one extra argument) and `help kerninfo
now` (two extra arguments). -/
theorem C9_help_with_arguments_witness :
    mon_help 2 ["help".toList, "backtrace".toList] World.empty
      = Outcome.ret 0 ⟨["kerninfo - Display information about the kernel - kerninfo\n".toList],
          [], []⟩
    ∧ mon_help 3 ["help".toList, "kerninfo".toList, "now".toList] World.empty
      = Outcome.ret 0 ⟨["help usage:\nhelp\nhelp <command>\n".toList], [], []⟩ :=
  ⟨(C9_help_with_arguments 2 ["help".toList, "backtrace".toList] World.empty).1 rfl,
   (C9_help_with_arguments 3 ["help".toList, "kerninfo".toList, "now".toList]
      World.empty).2.1 (by decide)⟩

/-- C9 as stated fails: on the line `help kerninfo now` (`argc = 3`)
`mon_help` is called and prints the usage text of `help`, in which the name
`kerninfo` does not occur. -/
theorem C9_two_extra_arguments_print_usage :
    runcmd 0 Kernel.blank "help kerninfo now".toList World.empty
      = Outcome.ret 0 ⟨["help usage:\nhelp\nhelp <command>\n".toList], [],
          [⟨Handler.mon_help, 3, ["help".toList, "kerninfo".toList, "now".toList]⟩]⟩
    ∧ ¬ ("kerninfo".toList <:+: "help usage:\nhelp\nhelp <command>\n".toList) := by
  decide

/-! ## `mon_backtrace` -/

/-- C10: on a memory holding a well-formed chain `fp_1 -> ... -> fp_N -> 0`
that starts at the frame pointer of `mon_backtrace`, with every word the
walker reads readable, `mon_backtrace` returns (for every step budget above
`N`) with result 0, having printed the header and then, frame by frame from
`fp_1` to `fp_N`, the summary line of the frame followed by its symbol line if
any.  The summary lines printed are exactly `N`, the `k`-th being that of
`fp_k`: it shows `fp_k`, the word stored at `fp_k + 1` word and the five words
stored at `fp_k + 2 .. fp_k + 6` words.  (The statement needs no lower bound
on `N`.) -/
theorem C10_backtrace_walks_chain (fuel : Nat) (k : Kernel) (argc : Nat) (argv : List Str)
    (w : World) (chain : List Nat)
    (hchain : isChain k (k.ebp % 2 ^ 32) chain = true)
    (hread : walkReadable k chain = true) (hfuel : chain.length < fuel) :
    ∃ w1, mon_backtrace fuel k argc argv w = Outcome.ret 0 w1
      ∧ w1.out = w.out ++ "Stack backtrace:\n".toList :: (chain.map (frameOut k)).flatten
      ∧ (w1.out.drop w.out.length).filter isSummaryLine
          = chain.map (fun fp => summaryLine fp (word k (fp + 4 * 1))
              [word k (fp + 4 * 2), word k (fp + 4 * 3), word k (fp + 4 * 4),
               word k (fp + 4 * 5), word k (fp + 4 * 6)])
      ∧ ((w1.out.drop w.out.length).filter isSummaryLine).length = chain.length
      ∧ w1.calls = w.calls := by
  have hfilter : ((w.out ++ "Stack backtrace:\n".toList
        :: (chain.map (frameOut k)).flatten).drop w.out.length).filter isSummaryLine
      = chain.map (summaryOf k) := by
    rw [List.drop_left]
    have hh : isSummaryLine "Stack backtrace:\n".toList = false := by decide
    rw [List.filter_cons_of_neg (by rw [hh]; exact Bool.false_ne_true), filter_frames]
  refine ⟨_, mon_backtrace_chain fuel k argc argv w chain hchain hread hfuel, rfl, ?_, ?_, rfl⟩
  · exact hfilter
  · simp only []
    rw [hfilter, List.length_map]

/-- C10 on a stack of two frames, and on the single frame that is left when
the walk starts at the outer one. -/
theorem C10_backtrace_walks_chain_witness :
    (∃ w1, mon_backtrace 3 Kernel.twoFrames 1 ["backtrace".toList] World.empty
        = Outcome.ret 0 w1
      ∧ w1.out = ["Stack backtrace:\n".toList,
          "ebp 00000100 eip 00000041 args 00000042 00000043 00000044  00000045 00000046\n".toList,
          "\t\tkern/init.c:24: i386_init+5\n".toList,
          "ebp 00000200 eip 00000081 args 00000082 00000083 00000084  00000085 00000086\n".toList])
    ∧ (∃ w1, mon_backtrace 2 { Kernel.twoFrames with ebp := 512 } 1 ["backtrace".toList]
          World.empty = Outcome.ret 0 w1
      ∧ w1.out = ["Stack backtrace:\n".toList,
          "ebp 00000200 eip 00000081 args 00000082 00000083 00000084  00000085 00000086\n".toList]) := by
  obtain ⟨w1, h1, h2, _⟩ := C10_backtrace_walks_chain 3 Kernel.twoFrames 1 ["backtrace".toList]
    World.empty [256, 512] (by decide) (by decide) (by decide)
  obtain ⟨w2, h3, h4, _⟩ := C10_backtrace_walks_chain 2 { Kernel.twoFrames with ebp := 512 } 1
    ["backtrace".toList] World.empty [512] (by decide) (by decide) (by decide)
  refine ⟨⟨w1, h1, ?_⟩, ⟨w2, h3, ?_⟩⟩
  · rw [h2]; decide
  · rw [h4]; decide

/-! ## `mon_backtrace` and the resolver -/

theorem flatten_map_singleton {α β : Type} (f : α → β) (l : List α) :
    (l.map (fun x => [f x])).flatten = l.map f := by
  induction l with
  | nil => rfl
  | cons a as ih => simp only [List.map_cons, List.flatten_cons, ih]; rfl

theorem frameOut_of_not_found {k : Kernel} {fp : Nat}
    (h : (k.debuginfo_eip (word k (fp + 4 * 1))).1 ≠ 0) : frameOut k fp = [summaryOf k fp] := by
  simp only [frameOut, symbolOut, if_neg h]

theorem isSymbolLine_summaryLine (ebp eip : Nat) (arg : List Nat) :
    isSymbolLine (summaryLine ebp eip arg) = false := rfl

theorem isSymbolLine_symbolLine (info : Eipdebuginfo) (off : Nat) :
    isSymbolLine (symbolLine info off) = true := rfl

theorem filter_symbol_summaries (k : Kernel) (chain : List Nat) :
    (chain.map (summaryOf k)).filter isSymbolLine = [] := by
  induction chain with
  | nil => rfl
  | cons fp fps ih =>
    rw [List.map_cons, List.filter_cons_of_neg, ih]
    rw [summaryOf, isSymbolLine_summaryLine]
    exact Bool.false_ne_true

/-- What the walker does with a resolver that finds nothing when, besides the
words of the frames, the six words at offsets 1 to 6 from the final 0 are
readable: it returns 0 having printed the header and then exactly one summary
line per frame, in order, and no symbol line. -/
theorem backtrace_resolver_finds_nothing (fuel : Nat) (k : Kernel) (argc : Nat) (argv : List Str)
    (w : World) (chain : List Nat)
    (hchain : isChain k (k.ebp % 2 ^ 32) chain = true)
    (hread : walkReadable k chain = true) (hfuel : chain.length < fuel)
    (hnone : ∀ a, (k.debuginfo_eip a).1 ≠ 0) :
    ∃ w1, mon_backtrace fuel k argc argv w = Outcome.ret 0 w1
      ∧ w1.out = w.out ++ "Stack backtrace:\n".toList
          :: chain.map (fun fp => summaryLine fp (word k (fp + 4 * 1))
              [word k (fp + 4 * 2), word k (fp + 4 * 3), word k (fp + 4 * 4),
               word k (fp + 4 * 5), word k (fp + 4 * 6)])
      ∧ (w1.out.drop w.out.length).length = chain.length + 1
      ∧ ((w1.out.drop w.out.length).filter isSummaryLine).length = chain.length
      ∧ (w1.out.drop w.out.length).filter isSymbolLine = []
      ∧ w1.calls = w.calls := by
  have hflat : (chain.map (frameOut k)).flatten = chain.map (summaryOf k) := by
    have h2 : chain.map (frameOut k) = chain.map (fun fp => [summaryOf k fp]) :=
      List.map_congr_left (fun fp _ => frameOut_of_not_found (hnone _))
    rw [h2, flatten_map_singleton]
  have hsum : (chain.map (summaryOf k)).filter isSummaryLine = chain.map (summaryOf k) := by
    rw [← hflat, filter_frames, hflat]
  have hh1 : isSummaryLine "Stack backtrace:\n".toList = false := by decide
  have hh2 : isSymbolLine "Stack backtrace:\n".toList = false := by decide
  refine ⟨_, mon_backtrace_chain fuel k argc argv w chain hchain hread hfuel, ?_, ?_, ?_, ?_, rfl⟩
  · simp only []
    rw [hflat]
    rfl
  · simp only []
    rw [List.drop_left, hflat, List.length_cons, List.length_map]
  · simp only []
    rw [List.drop_left, hflat, List.filter_cons_of_neg (by rw [hh1]; exact Bool.false_ne_true),
      hsum, List.length_map]
  · simp only []
    rw [List.drop_left, hflat, List.filter_cons_of_neg (by rw [hh2]; exact Bool.false_ne_true),
      filter_symbol_summaries]

/-- C11, the code at the failing input: the well-formed chain 256 -> 512 -> 0
with every word of the two frames readable (offsets 0 to 6 words from each
frame pointer) and a resolver that reports not-found for every address.  The
pass for the first frame prints its summary line and goes on to the frame at
512; the pass for the last frame stops at a faulting read (of the word at
address 4, loaded for the frame pointer 0 before the loop condition is tested
again), so `mon_backtrace` does not return. -/
theorem C11_walk_faults_after_last_frame :
    isChain Kernel.framesOnlyNotFound (Kernel.framesOnlyNotFound.ebp % 2 ^ 32) [256, 512] = true
    ∧ (∀ fp ∈ [256, 512], ∀ i, i ≤ 6 → readable Kernel.framesOnlyNotFound (fp + 4 * i) = true)
    ∧ (∀ a, (Kernel.framesOnlyNotFound.debuginfo_eip a).1 = -1)
    ∧ readable Kernel.framesOnlyNotFound 4 = false
    ∧ (backtraceBody Kernel.framesOnlyNotFound 256 65 [66, 67, 68, 69, 70] World.empty).map
          (fun r => (r.1, r.2.1, r.2.2.1, r.2.2.2.out))
        = some (512, 129, [130, 131, 132, 133, 134],
            ["ebp 00000100 eip 00000041 args 00000042 00000043 00000044  00000045 00000046\n".toList])
    ∧ backtraceBody Kernel.framesOnlyNotFound 512 129 [130, 131, 132, 133, 134] World.empty = none
    ∧ mon_backtrace 3 Kernel.framesOnlyNotFound 1 ["backtrace".toList] World.empty
        = Outcome.fault :=
  ⟨by decide, by decide, fun _ => rfl, by decide, by decide, by decide, by decide⟩

theorem toInt32_sub32 (a b : Nat) :
    (toInt32 (sub32 a b) - ((a : Int) - (b : Int))) % 2 ^ 32 = 0 := by
  unfold toInt32 sub32
  split <;> omega

theorem isChain_resolver (k : Kernel) (resolver : Nat → Int × Eipdebuginfo) :
    ∀ (chain : List Nat) (start : Nat),
      isChain { k with debuginfo_eip := resolver } start chain = isChain k start chain := by
  intro chain
  induction chain with
  | nil => intro start; rfl
  | cons fp fps ih =>
    intro start
    simp only [isChain]
    rw [ih]
    rfl

theorem frameOut_resolver (k : Kernel) (resolver : Nat → Int × Eipdebuginfo) (fp : Nat)
    (h : resolver (word k (fp + 4 * 1)) = k.debuginfo_eip (word k (fp + 4 * 1))) :
    frameOut { k with debuginfo_eip := resolver } fp = frameOut k fp
    ∧ frameReads { k with debuginfo_eip := resolver } fp = frameReads k fp := by
  have hw : ∀ a, word { k with debuginfo_eip := resolver } a = word k a := fun _ => rfl
  constructor
  · simp only [frameOut, summaryOf, symbolOut, frameArgs, hw]
    rw [h]
  · simp only [frameReads, hw]
    rw [h]

/-- What the walker prints when, besides the words of the frames, the six
words at offsets 1 to 6 from the final 0 are readable: for each frame, in
order, its summary line and then, exactly when the resolver asked for the
return address of that same frame (the `eip` of its summary line) answers 0,
one symbol line, before anything of the next frame.  The symbol line holds the
source file, the line number, the function name and the offset of the return
address from the start of the function, computed on 32 bits (the number
printed by `%d` is congruent to the difference modulo `2 ^ 32`).  The resolver
is not asked for anything else: a resolver that agrees with it on the return
addresses of the frames gives the same run. -/
theorem backtrace_symbol_lines (fuel : Nat) (k : Kernel) (argc : Nat) (argv : List Str)
    (w : World) (chain : List Nat)
    (hchain : isChain k (k.ebp % 2 ^ 32) chain = true)
    (hread : walkReadable k chain = true) (hfuel : chain.length < fuel) :
    (∃ w1, mon_backtrace fuel k argc argv w = Outcome.ret 0 w1
      ∧ w1.out = w.out ++ "Stack backtrace:\n".toList :: (chain.map (frameOut k)).flatten)
    ∧ (∀ fp, (k.debuginfo_eip (word k (fp + 4 * 1))).1 = 0 →
        frameOut k fp
          = [summaryLine fp (word k (fp + 4 * 1)) (frameArgs k fp),
             "\t\t".toList ++ fmt_s (k.debuginfo_eip (word k (fp + 4 * 1))).2.eip_file
               ++ ":".toList ++ fmt_d (k.debuginfo_eip (word k (fp + 4 * 1))).2.eip_line
               ++ ": ".toList
               ++ fmt_prec_s (k.debuginfo_eip (word k (fp + 4 * 1))).2.eip_fn_namelen
                   (k.debuginfo_eip (word k (fp + 4 * 1))).2.eip_fn_name
               ++ "+".toList
               ++ fmt_d (toInt32 (sub32 (word k (fp + 4 * 1))
                   (k.debuginfo_eip (word k (fp + 4 * 1))).2.eip_fn_addr))
               ++ "\n".toList])
    ∧ (∀ fp, (k.debuginfo_eip (word k (fp + 4 * 1))).1 ≠ 0 →
        frameOut k fp = [summaryLine fp (word k (fp + 4 * 1)) (frameArgs k fp)])
    ∧ (∀ a b : Nat, (toInt32 (sub32 a b) - ((a : Int) - (b : Int))) % 2 ^ 32 = 0)
    ∧ (∀ resolver : Nat → Int × Eipdebuginfo,
        (∀ fp ∈ chain, resolver (word k (fp + 4 * 1)) = k.debuginfo_eip (word k (fp + 4 * 1))) →
        mon_backtrace fuel { k with debuginfo_eip := resolver } argc argv w
          = mon_backtrace fuel k argc argv w) := by
  refine ⟨⟨_, mon_backtrace_chain fuel k argc argv w chain hchain hread hfuel, rfl⟩, ?_, ?_,
    toInt32_sub32, ?_⟩
  · intro fp h
    simp only [frameOut, summaryOf, symbolOut, if_pos h, symbolLine]
  · intro fp h
    exact frameOut_of_not_found h
  · intro resolver hr
    have hc : isChain { k with debuginfo_eip := resolver }
        (({ k with debuginfo_eip := resolver } : Kernel).ebp % 2 ^ 32) chain = true := by
      rw [isChain_resolver]; exact hchain
    have hrd : walkReadable { k with debuginfo_eip := resolver } chain = true := hread
    rw [mon_backtrace_chain fuel _ argc argv w chain hc hrd hfuel,
      mon_backtrace_chain fuel k argc argv w chain hchain hread hfuel]
    have h1 : chain.map (frameOut { k with debuginfo_eip := resolver })
        = chain.map (frameOut k) :=
      List.map_congr_left (fun fp hfp => (frameOut_resolver k resolver fp (hr fp hfp)).1)
    have h2 : chain.map (frameReads { k with debuginfo_eip := resolver })
        = chain.map (frameReads k) :=
      List.map_congr_left (fun fp hfp => (frameOut_resolver k resolver fp (hr fp hfp)).2)
    rw [h1, h2]

/-- C12, the code at the failing input: the well-formed chain 256 -> 512 -> 0
with every word of the two frames readable and a resolver that knows the
return address 129 of the last frame.  The pass for the last frame stops at a
faulting read before `debuginfo_eip` is called, so the resolver is never asked
for that frame and its symbol line is not printed, although the query would
succeed; `mon_backtrace` does not return.  In the same stack with every word
readable the symbol line follows the summary line of the last frame. -/
theorem C12_last_frame_not_resolved :
    isChain Kernel.framesOnlyLast (Kernel.framesOnlyLast.ebp % 2 ^ 32) [256, 512] = true
    ∧ (∀ fp ∈ [256, 512], ∀ i, i ≤ 6 → readable Kernel.framesOnlyLast (fp + 4 * i) = true)
    ∧ word Kernel.framesOnlyLast (512 + 4 * 1) = 129
    ∧ (Kernel.framesOnlyLast.debuginfo_eip 129).1 = 0
    ∧ backtraceBody Kernel.framesOnlyLast 512 129 [130, 131, 132, 133, 134] World.empty = none
    ∧ mon_backtrace 3 Kernel.framesOnlyLast 1 ["backtrace".toList] World.empty = Outcome.fault
    ∧ (mon_backtrace 3
          { Kernel.twoFrames with debuginfo_eip := Kernel.framesOnlyLast.debuginfo_eip }
          1 ["backtrace".toList] World.empty).observed
        = Outcome.ret 0
            ⟨["Stack backtrace:\n".toList,
              "ebp 00000100 eip 00000041 args 00000042 00000043 00000044  00000045 00000046\n".toList,
              "ebp 00000200 eip 00000081 args 00000082 00000083 00000084  00000085 00000086\n".toList,
              "\t\tkern/entry.S:83: relocated+29\n".toList],
             [], []⟩ := by
  decide

theorem cstr_take_of_no_NUL (s : Str) (n : Nat) (hn : n ≤ s.length)
    (h : ∀ c ∈ s.take n, c ≠ NUL) (rest : Str) :
    cstr ((s.take n ++ rest).take n) = s.take n := by
  have hl : (s.take n).length = n := by simp [hn]
  have : (s.take n ++ rest).take n = s.take n := by
    rw [List.take_append_of_le_length (by omega), List.take_take]
    simp
  rw [this]
  exact cstr_eq_self h

theorem fmt_prec_s_take (s : Str) (n : Nat) (hn : n ≤ s.length)
    (h : ∀ c ∈ s.take n, c ≠ NUL) (rest : Str) :
    fmt_prec_s (n : Int) (s.take n ++ rest) = s.take n := by
  have hneg : ¬ ((n : Int) < 0) := by omega
  simp only [fmt_prec_s, if_neg hneg, Int.toNat_ofNat]
  exact cstr_take_of_no_NUL s n hn h rest

/-- C13: when the resolver succeeds for the frame at `fp` with a name length
`n` smaller than the length of the name buffer, the first `n` characters of
which are no terminators, the function name in the symbol line of that frame
is exactly the first `n` characters of the buffer; whatever follows them in
the buffer has no influence on the line. -/
theorem C13_name_cut_at_length (k : Kernel) (fp : Nat) (n : Nat)
    (hfound : (k.debuginfo_eip (word k (fp + 4 * 1))).1 = 0)
    (hlen : (k.debuginfo_eip (word k (fp + 4 * 1))).2.eip_fn_namelen = (n : Int))
    (hn : n < (k.debuginfo_eip (word k (fp + 4 * 1))).2.eip_fn_name.length)
    (hnul : ∀ c ∈ (k.debuginfo_eip (word k (fp + 4 * 1))).2.eip_fn_name.take n, c ≠ NUL) :
    symbolOut k fp
      = ["\t\t".toList ++ fmt_s (k.debuginfo_eip (word k (fp + 4 * 1))).2.eip_file
          ++ ":".toList ++ fmt_d (k.debuginfo_eip (word k (fp + 4 * 1))).2.eip_line
          ++ ": ".toList
          ++ (k.debuginfo_eip (word k (fp + 4 * 1))).2.eip_fn_name.take n
          ++ "+".toList
          ++ fmt_d (toInt32 (sub32 (word k (fp + 4 * 1))
              (k.debuginfo_eip (word k (fp + 4 * 1))).2.eip_fn_addr))
          ++ "\n".toList]
    ∧ fmt_prec_s (k.debuginfo_eip (word k (fp + 4 * 1))).2.eip_fn_namelen
        (k.debuginfo_eip (word k (fp + 4 * 1))).2.eip_fn_name
      = (k.debuginfo_eip (word k (fp + 4 * 1))).2.eip_fn_name.take n
    ∧ (∀ (rest : Str) (off : Nat),
        symbolLine { (k.debuginfo_eip (word k (fp + 4 * 1))).2 with
            eip_fn_name := (k.debuginfo_eip (word k (fp + 4 * 1))).2.eip_fn_name.take n ++ rest }
          off
        = symbolLine (k.debuginfo_eip (word k (fp + 4 * 1))).2 off) := by
  have hsplit := List.take_append_drop n (k.debuginfo_eip (word k (fp + 4 * 1))).2.eip_fn_name
  have hname : fmt_prec_s (k.debuginfo_eip (word k (fp + 4 * 1))).2.eip_fn_namelen
        (k.debuginfo_eip (word k (fp + 4 * 1))).2.eip_fn_name
      = (k.debuginfo_eip (word k (fp + 4 * 1))).2.eip_fn_name.take n := by
    rw [hlen]
    conv_lhs => rw [← hsplit]
    exact fmt_prec_s_take _ n (Nat.le_of_lt hn) hnul _
  refine ⟨?_, hname, ?_⟩
  · simp only [symbolOut, if_pos hfound, symbolLine, hname]
  · intro rest off
    simp only [symbolLine]
    rw [hname, hlen, fmt_prec_s_take _ n (Nat.le_of_lt hn) hnul rest]

/-- C13 on the first frame of the stack of two frames: the name buffer is
`i386_init:F(0,1)`, the length 9, the name printed `i386_init`. -/
theorem C13_name_cut_at_length_witness :
    symbolOut Kernel.twoFrames 256 = ["\t\tkern/init.c:24: i386_init+5\n".toList]
    ∧ (Kernel.twoFrames.debuginfo_eip (word Kernel.twoFrames (256 + 4 * 1))).2.eip_fn_name
        = "i386_init:F(0,1)".toList := by
  have h := (C13_name_cut_at_length Kernel.twoFrames 256 9 (by decide) (by decide) (by decide)
    (by decide)).1
  exact ⟨by rw [h]; decide, by decide⟩

/-! ## The reads of the frame walker -/

/-- C14, the code at the failing input: on the well-formed chain 256 -> 512 ->
0 with every word readable, the walk reads the six words at the addresses 4 to
24 (offsets 1 to 6 words from the final 0) after the last frame; with exactly
the words at offsets 0 to 6 words from the two frame pointers readable, the
walk stops at a faulting read instead of completing; and started at the frame
pointer 0 it reads the addresses 4 to 24 before its loop. -/
theorem C14_reads_below_the_sentinel :
    isChain Kernel.twoFrames (Kernel.twoFrames.ebp % 2 ^ 32) [256, 512] = true
    ∧ mon_backtrace 3 Kernel.twoFrames 1 ["backtrace".toList] World.empty
      = Outcome.ret 0
          ⟨["Stack backtrace:\n".toList,
            "ebp 00000100 eip 00000041 args 00000042 00000043 00000044  00000045 00000046\n".toList,
            "\t\tkern/init.c:24: i386_init+5\n".toList,
            "ebp 00000200 eip 00000081 args 00000082 00000083 00000084  00000085 00000086\n".toList],
           [260, 264, 268, 272, 276, 280, 256, 516, 520, 524, 528, 532, 536, 260, 260, 256,
            512, 4, 8, 12, 16, 20, 24, 516, 512],
           []⟩
    ∧ isChain Kernel.framesOnly (Kernel.framesOnly.ebp % 2 ^ 32) [256, 512] = true
    ∧ (∀ fp ∈ [256, 512], ∀ i, i ≤ 6 → readable Kernel.framesOnly (fp + 4 * i) = true)
    ∧ mon_backtrace 3 Kernel.framesOnly 1 ["backtrace".toList] World.empty = Outcome.fault
    ∧ mon_backtrace 1 { Kernel.twoFrames with ebp := 0 } 1 ["backtrace".toList] World.empty
      = Outcome.ret 0 ⟨["Stack backtrace:\n".toList], [4, 8, 12, 16, 20, 24], []⟩ := by
  decide

/-! ## A chain that never reaches 0 -/

/-- The walker with an object `info` of no word is the walker whose memory is
never written. -/
theorem backtraceBodyStack_no_object (a : Nat) (image : Nat → Nat → Nat) (k : Kernel)
    (ebp eip : Nat) (arg : List Nat) (w : World) :
    backtraceBodyStack ⟨a, 0, image⟩ true k ebp eip arg w
      = (backtraceBody k ebp eip arg w).map (fun r => (r.1, r.2.1, r.2.2.1, r.2.2.2, k)) := by
  have hk : ∀ q, ({ k with mem := writeInfo ⟨a, 0, image⟩ q k.mem } : Kernel) = k := fun _ => rfl
  simp only [backtraceBodyStack, backtraceBody, hk, Option.bind_eq_bind, Option.pure_def,
    if_true, Option.map_eq_map, Option.map_bind, Function.comp_def, Option.map_some']

theorem backtraceLoopStack_no_object (a : Nat) (image : Nat → Nat → Nat) (k : Kernel) :
    ∀ (fuel ebp eip : Nat) (arg : List Nat) (w : World),
      backtraceLoopStack ⟨a, 0, image⟩ true fuel k ebp eip arg w
        = backtraceLoop k fuel ebp eip arg w := by
  intro fuel
  induction fuel with
  | zero => intro ebp eip arg w; rfl
  | succ fuel ih =>
    intro ebp eip arg w
    rw [backtraceLoopStack, backtraceLoop, backtraceBodyStack_no_object]
    cases backtraceBody k ebp eip arg w with
    | none => rfl
    | some r => simp only [Option.map_some', ih]

/-- With an object `info` of no word, `mon_backtraceStack` as written is
`mon_backtrace`. -/
theorem mon_backtraceStack_no_object (a : Nat) (image : Nat → Nat → Nat) (fuel : Nat)
    (k : Kernel) (argc : Nat) (argv : List Str) (w : World) :
    mon_backtraceStack ⟨a, 0, image⟩ true fuel k argc argv w = mon_backtrace fuel k argc argv w := by
  simp only [mon_backtraceStack, mon_backtrace, backtraceLoopStack_no_object]

theorem forall2_zapped_refl : ∀ (l : Str), List.Forall₂ zapped l l := by
  intro l
  induction l with
  | nil => exact List.Forall₂.nil
  | cons c cs ih => exact List.Forall₂.cons (Or.inl rfl) ih

theorem forall2_zapped_ws (l : Str) :
    List.Forall₂ zapped (l.takeWhile isWhitespace)
      ((l.takeWhile isWhitespace).map (fun _ => NUL)) := by
  induction l with
  | nil => exact List.Forall₂.nil
  | cons c cs ih =>
    by_cases hc : isWhitespace c = true
    · rw [List.takeWhile_cons_of_pos hc]
      exact List.Forall₂.cons (Or.inr ⟨hc, rfl⟩) ih
    · rw [List.takeWhile_cons_of_neg hc]
      exact List.Forall₂.nil

theorem forall2_append {R : Char → Char → Prop} : ∀ {a b c d : Str},
    List.Forall₂ R a b → List.Forall₂ R c d → List.Forall₂ R (a ++ c) (b ++ d) := by
  intro a b c d h1 h2
  induction h1 with
  | nil => exact h2
  | cons h _ ih => exact List.Forall₂.cons h ih

/-- Whichever way the parsing loop ends, the buffer it leaves is the part
before `buf` followed by the part from `buf` on in which some whitespace bytes
have become terminators and nothing else has changed. -/
theorem parseLoop_buffer : ∀ (fuel : Nat) (done rest : Str) (argc : Nat) (argv : Nat → Slot)
    (r : Parsed) (b : Str), parseLoop fuel done rest argc argv = some r → r.buffer = some b →
    ∃ rest1, b = done ++ rest1 ∧ List.Forall₂ zapped rest rest1 := by
  intro fuel
  induction fuel with
  | zero => intro done rest argc argv r b h; exact Option.noConfusion h
  | succ fuel ih =>
    intro done rest argc argv r b h hb
    have hsplit := List.takeWhile_append_dropWhile isWhitespace rest
    have hsplit2 := List.takeWhile_append_dropWhile isTokenChar (rest.dropWhile isWhitespace)
    have hz : List.Forall₂ zapped rest
        ((rest.takeWhile isWhitespace).map (fun _ => NUL) ++ rest.dropWhile isWhitespace) := by
      conv_lhs => rw [← hsplit]
      exact forall2_append (forall2_zapped_ws rest) (forall2_zapped_refl _)
    simp only [parseLoop, gobble_eq, scanArg_eq] at h
    split at h
    · injection h with h
      subst h
      injection hb with hb
      exact ⟨_, by rw [← hb, List.append_assoc], hz⟩
    · split at h
      · injection h with h
        subst h
        injection hb with hb
        exact ⟨_, by rw [← hb, List.append_assoc], hz⟩
      · split at h
        · injection h with h
          subst h
          exact Option.noConfusion hb
        · obtain ⟨rest2, e, hf⟩ := ih _ _ _ _ r b h hb
          refine ⟨(rest.takeWhile isWhitespace).map (fun _ => NUL)
            ++ ((rest.dropWhile isWhitespace).takeWhile isTokenChar ++ rest2), ?_, ?_⟩
          · rw [e]; simp only [List.append_assoc]
          · conv_lhs => rw [← hsplit, ← hsplit2]
            exact forall2_append (forall2_zapped_ws rest)
              (forall2_append (forall2_zapped_refl _) hf)

theorem parseArgs_buffer (buf : Str) (r : Parsed) (b : Str) (h : parseArgs buf = some r)
    (hb : r.buffer = some b) : List.Forall₂ zapped buf b := by
  unfold parseArgs at h
  have h0 : argvWrite (fun _ => Slot.junk) 0 Slot.null
      = some (fun j => if j = 0 then Slot.null else Slot.junk) := rfl
  rw [h0] at h
  simp only [] at h
  cases hp : parseLoop (buf.length + 1) [] buf 0 (fun j => if j = 0 then Slot.null else Slot.junk)
    with
  | none => rw [hp] at h; exact Option.noConfusion h
  | some p =>
    rw [hp] at h
    cases p with
    | tooMany b1 =>
      simp only [] at h
      injection h with h
      subst h
      obtain ⟨rest1, e, hf⟩ := parseLoop_buffer _ _ _ _ _ _ b hp hb
      rw [e]; exact hf
    | outOfBounds =>
      simp only [] at h
      injection h with h
      subst h
      exact Option.noConfusion hb
    | args b1 argc argv =>
      simp only [] at h
      obtain ⟨rest1, e, hf⟩ := parseLoop_buffer _ _ _ _ _ _ b1 hp rfl
      split at h
      · injection h with h
        subst h
        exact Option.noConfusion hb
      · injection h with h
        subst h
        injection hb with hb
        subst hb
        rw [e]; exact hf

theorem zap_eq_map : ∀ (l : Str), (∀ c ∈ l, c ≠ NUL) →
    zap l = l.map (fun c => if isWhitespace c = true then NUL else c) := by
  intro l
  induction l with
  | nil => intro _; rfl
  | cons c cs ih =>
    intro h
    have hc : c ≠ NUL := h c (List.mem_cons_self _ _)
    have ih1 := ih (fun d hd => h d (List.mem_cons_of_mem _ hd))
    by_cases hw : isWhitespace c = true
    · simp only [zap, if_neg hc, if_pos hw, List.map_cons, ih1]
    · simp only [zap, if_neg hc, if_neg hw, List.map_cons, ih1]

theorem forall2_zapped_getD : ∀ {a b : Str}, List.Forall₂ zapped a b →
    ∀ i, i < a.length → zapped (a.getD i NUL) (b.getD i NUL) := by
  intro a b h
  induction h with
  | nil => intro i hi; exact absurd hi (Nat.not_lt_zero _)
  | cons hx _ ih =>
    intro i hi
    cases i with
    | zero => exact hx
    | succ j =>
      simp only [List.getD_cons_succ]
      exact ih j (by simp only [List.length_cons] at hi; omega)

/-- C17: the parse of `runcmd` always ends at its `break` or at the report of
too many arguments, and the buffer it leaves has the length of the buffer it
was given and differs from it only in bytes that were whitespace and are now
terminators; no other byte is modified.  When the line is accepted the buffer
is the given one with every whitespace byte of the line turned into a
terminator, and the strings behind `argv[0..argc-1]`, each read up to the next
terminator, are the tokens. -/
theorem C17_buffer_only_zapped (buf : Str) :
    ∃ r b, parseArgs buf = some r ∧ r.buffer = some b
      ∧ List.Forall₂ zapped buf b
      ∧ b.length = buf.length
      ∧ (∀ i, i < buf.length →
          b.getD i NUL = buf.getD i NUL
            ∨ (isWhitespace (buf.getD i NUL) = true ∧ b.getD i NUL = NUL))
      ∧ (∀ i, i < buf.length → isWhitespace (buf.getD i NUL) = false →
          b.getD i NUL = buf.getD i NUL)
      ∧ ((specTokens (cstr buf)).length < MAXARGS →
          b = zap buf
          ∧ ((∀ c ∈ buf, c ≠ NUL) →
              b = buf.map (fun c => if isWhitespace c = true then NUL else c))
          ∧ ∃ argv, r = Parsed.args b (specTokens (cstr buf)).length argv
              ∧ argStrings b (specTokens (cstr buf)).length argv = specTokens (cstr buf)) := by
  have key : ∀ r b, parseArgs buf = some r → r.buffer = some b →
      List.Forall₂ zapped buf b
      ∧ b.length = buf.length
      ∧ (∀ i, i < buf.length →
          b.getD i NUL = buf.getD i NUL
            ∨ (isWhitespace (buf.getD i NUL) = true ∧ b.getD i NUL = NUL))
      ∧ (∀ i, i < buf.length → isWhitespace (buf.getD i NUL) = false →
          b.getD i NUL = buf.getD i NUL) := by
    intro r b h hb
    have hf := parseArgs_buffer buf r b h hb
    refine ⟨hf, hf.length_eq.symm, fun i hi => forall2_zapped_getD hf i hi, ?_⟩
    intro i hi hw
    rcases forall2_zapped_getD hf i hi with h1 | ⟨h1, _⟩
    · exact h1
    · rw [hw] at h1; exact Bool.noConfusion h1
  by_cases hacc : (specTokens (cstr buf)).length < MAXARGS
  · obtain ⟨argv, e, hs, _⟩ := parseArgs_accept buf hacc
    obtain ⟨k1, k2, k3, k4⟩ := key _ (zap buf) e rfl
    exact ⟨_, zap buf, e, rfl, k1, k2, k3, k4,
      fun _ => ⟨rfl, fun hn => zap_eq_map buf hn, argv, rfl, hs⟩⟩
  · obtain ⟨b, e⟩ := parseArgs_reject buf (Nat.le_of_not_lt hacc)
    obtain ⟨k1, k2, k3, k4⟩ := key _ b e rfl
    exact ⟨_, b, e, rfl, k1, k2, k3, k4, fun h => absurd h hacc⟩

/-- C17 on the line `help  me\n`: the two spaces and the newline have become
terminators, the letters are as they were, and the strings behind `argv` are
`help` and `me`. -/
theorem C17_buffer_only_zapped_witness :
    zap "help  me\n".toList = "help".toList ++ [NUL, NUL] ++ "me".toList ++ [NUL]
    ∧ ∃ r, parseArgs "help  me\n".toList = some r ∧ r.buffer = some (zap "help  me\n".toList)
        ∧ ∃ argv, r = Parsed.args (zap "help  me\n".toList) 2 argv
          ∧ argStrings (zap "help  me\n".toList) 2 argv = ["help".toList, "me".toList] := by
  obtain ⟨r, b, h1, h2, _, _, _, _, h3⟩ := C17_buffer_only_zapped "help  me\n".toList
  obtain ⟨hb, _, argv, hr, hs⟩ := h3 (by decide)
  subst hb
  have e : specTokens (cstr "help  me\n".toList) = ["help".toList, "me".toList] := by decide
  rw [e] at hr hs
  exact ⟨by decide, r, h1, h2, argv, hr, hs⟩

/-! ## The layout of a summary line -/

theorem hexDigit_mem (d : Nat) : hexDigit d ∈ "0123456789abcdef".toList := by
  unfold hexDigit
  have h : d % 16 < 16 := Nat.mod_lt _ (by decide)
  generalize d % 16 = m at h
  interval_cases m <;> decide

theorem hexValue_hexDigit (d : Nat) : hexValue (hexDigit d) = d % 16 := by
  unfold hexDigit
  have h : d % 16 < 16 := Nat.mod_lt _ (by decide)
  generalize d % 16 = m at h
  interval_cases m <;> decide

theorem length_fmt_08x (v : Nat) : (fmt_08x v).length = 8 := rfl

theorem length_summaryLine (ebp eip : Nat) (arg : List Nat) :
    (summaryLine ebp eip arg).length = 77 := by
  simp only [summaryLine, List.length_append, length_fmt_08x]
  rfl

theorem getLast_summaryLine (ebp eip : Nat) (arg : List Nat) :
    (summaryLine ebp eip arg).getLast? = some (Char.ofNat 10) := by
  unfold summaryLine
  rw [List.getLast?_append]
  rfl

/-- C18: every summary line has the same layout whatever the values: the label
`ebp`, the frame pointer, the label `eip`, the return address, the label
`args` and the five words, each number as exactly eight lowercase hexadecimal
digits padded with zeros (they spell the 32-bit value), which makes 76
characters and the newline. -/
theorem C18_summary_line_layout (ebp eip a0 a1 a2 a3 a4 : Nat) :
    summaryLine ebp eip [a0, a1, a2, a3, a4]
      = "ebp ".toList ++ fmt_08x ebp ++ " eip ".toList ++ fmt_08x eip ++ " args ".toList
          ++ fmt_08x a0 ++ " ".toList ++ fmt_08x a1 ++ " ".toList ++ fmt_08x a2
          ++ "  ".toList ++ fmt_08x a3 ++ " ".toList ++ fmt_08x a4 ++ "\n".toList
    ∧ (summaryLine ebp eip [a0, a1, a2, a3, a4]).length = 76 + 1
    ∧ (summaryLine ebp eip [a0, a1, a2, a3, a4]).getLast? = some (Char.ofNat 10)
    ∧ (∀ v, (fmt_08x v).length = 8
        ∧ (∀ c ∈ fmt_08x v, c ∈ "0123456789abcdef".toList)
        ∧ (v < 2 ^ 32 → (fmt_08x v).foldl (fun acc c => 16 * acc + hexValue c) 0 = v)) := by
  refine ⟨rfl, length_summaryLine _ _ _, getLast_summaryLine _ _ _, ?_⟩
  · intro v
    refine ⟨rfl, ?_, ?_⟩
    · intro c hc
      simp only [fmt_08x, List.mem_cons, List.mem_singleton, List.not_mem_nil, or_false] at hc
      rcases hc with h | h | h | h | h | h | h | h <;> (rw [h]; exact hexDigit_mem _)
    · intro hv
      simp only [fmt_08x, List.foldl, hexValue_hexDigit]
      norm_num
      omega

/-- C18 on the frame pointer `0xf0113f58` with return address 0 and the words
1, 10, 255, `0xffffffff` and `0xdeadbeef`. -/
theorem C18_summary_line_layout_witness :
    summaryLine 4027662168 0 [1, 10, 255, 4294967295, 3735928559]
      = "ebp f0113f58 eip 00000000 args 00000001 0000000a 000000ff  ffffffff deadbeef\n".toList
    ∧ (summaryLine 4027662168 0 [1, 10, 255, 4294967295, 3735928559]).length = 76 + 1 :=
  ⟨by decide, (C18_summary_line_layout 4027662168 0 1 10 255 4294967295 3735928559).2.1⟩

/-! ## The bounds of `argv` -/

theorem lookupFrom_cases (fuel : Nat) (k : Kernel) (argc : Nat) (argv : List Str) (w : World) :
    ∀ (cs : List Command),
      lookupFrom fuel k argc argv w cs
          = Outcome.ret 0 (cprintf (unknownCommandText (argv.getD 0 [])) w)
      ∨ ∃ c ∈ cs, lookupFrom fuel k argc argv w cs = invoke fuel k c argc argv w := by
  intro cs
  induction cs with
  | nil => exact Or.inl rfl
  | cons c cs ih =>
    rw [lookupFrom]
    split
    · exact Or.inr ⟨c, List.mem_cons_self _ _, rfl⟩
    · rcases ih with h | ⟨d, hd, h⟩
      · exact Or.inl h
      · exact Or.inr ⟨d, List.mem_cons_of_mem _ hd, h⟩

/-- C19: no write to `argv` in `runcmd` is outside the array, whatever the
line: the parse never ends at a write with an index of `MAXARGS` or more, and
it always ends.  When it ends at its `break`, `argc` is at most 15 and
`argv[argc]` holds the null pointer.  `runcmd` then either returns 0 without
calling a handler, or calls the function of one table entry with
`1 <= argc <= 15`. -/
theorem C19_argv_within_bounds (fuel : Nat) (k : Kernel) (buf : Str) (w : World) :
    parseArgs buf ≠ some Parsed.outOfBounds
    ∧ parseArgs buf ≠ none
    ∧ (∀ b argc argv, parseArgs buf = some (Parsed.args b argc argv) →
        argc ≤ 15 ∧ argc < MAXARGS ∧ argv argc = Slot.null)
    ∧ ((∃ w1, runcmd fuel k buf w = Outcome.ret 0 w1 ∧ w1.calls = w.calls)
       ∨ (∃ c ∈ commands, ∃ b argc argv,
            parseArgs buf = some (Parsed.args b argc argv)
            ∧ 1 ≤ argc ∧ argc ≤ 15 ∧ argv argc = Slot.null
            ∧ runcmd fuel k buf w = invoke fuel k c argc (argStrings b argc argv) w)) := by
  by_cases hacc : (specTokens (cstr buf)).length < MAXARGS
  · obtain ⟨argv, e, hs, hnull⟩ := parseArgs_accept buf hacc
    have h15 : (specTokens (cstr buf)).length ≤ 15 := Nat.le_of_lt_succ hacc
    refine ⟨by rw [e]; intro h; injection h with h; exact Parsed.noConfusion h,
      by rw [e]; exact Option.noConfusion, ?_, ?_⟩
    · intro b argc argv1 h
      rw [e] at h
      injection h with h
      injection h with h1 h2 h3
      subst h2
      subst h3
      exact ⟨h15, hacc, hnull⟩
    · rw [runcmd_accept fuel k buf w hacc, lookup]
      by_cases h0 : (specTokens (cstr buf)).length = 0
      · rw [if_pos h0]
        exact Or.inl ⟨w, rfl, rfl⟩
      · rw [if_neg h0]
        rcases lookupFrom_cases fuel k _ (specTokens (cstr buf)) w commands with h | ⟨c, hc, h⟩
        · exact Or.inl ⟨_, h, rfl⟩
        · refine Or.inr ⟨c, hc, _, _, argv, e, Nat.pos_of_ne_zero h0, h15, hnull, ?_⟩
          rw [h, hs]
  · obtain ⟨b, e⟩ := parseArgs_reject buf (Nat.le_of_not_lt hacc)
    refine ⟨by rw [e]; intro h; injection h with h; exact Parsed.noConfusion h,
      by rw [e]; exact Option.noConfusion, ?_, ?_⟩
    · intro b1 argc argv h
      rw [e] at h
      injection h with h
      exact Parsed.noConfusion h
    · rw [runcmd_reject fuel k buf w (Nat.le_of_not_lt hacc)]
      exact Or.inl ⟨_, rfl, rfl⟩

/-- C19 on a line of 15 tokens, the longest that is accepted (the handler is
called with `argc = 15`), and on a line of 40 tokens (no handler is
called). -/
theorem C19_argv_within_bounds_witness :
    (∃ b argv, parseArgs "help 2 3 4 5 6 7 8 9 10 11 12 13 14 15".toList
        = some (Parsed.args b 15 argv) ∧ argv 15 = Slot.null)
    ∧ parseArgs
        "a a a a a a a a a a a a a a a a a a a a a a a a a a a a a a a a a a a a a a a a".toList
      ≠ some Parsed.outOfBounds := by
  refine ⟨?_, (C19_argv_within_bounds 0 Kernel.blank _ World.empty).1⟩
  obtain ⟨argv, e, _, hnull⟩ := parseArgs_accept "help 2 3 4 5 6 7 8 9 10 11 12 13 14 15".toList
    (by decide)
  have hl : (specTokens (cstr "help 2 3 4 5 6 7 8 9 10 11 12 13 14 15".toList)).length = 15 := by
    decide
  rw [hl] at e hnull
  exact ⟨_, argv, e, hnull⟩

end Monitor
